import Mathlib

/-!
# Verification of the depends / tree-sitter graph visualizer

A shallow embedding of the graph transformation and rendering pipeline of the
depends-tree-sitter-visualizer repository, together with proofs about it.

Modelling conventions:
* Text is modelled as `String` / `List Char`.  The source normalizes `\r\n` to
  `\n` before processing and then works with line-anchored JavaScript regexes
  (`m` flag); the embedding treats `\n` as the sole line terminator and models
  each regex as a deterministic scanner (the regexes involved are
  backtracking-free: every quantified character class is disjoint from the
  character that follows it, except for the lazy label group, which is modelled
  by its lazy semantics directly).
* JavaScript global regex scanning (`exec` in a loop / `replace` with `g`)
  advances by one character after a failed match attempt and continues after
  the consumed text on success; `scanAll` below implements exactly that,
  using fuel (the text length) so that all definitions are structurally
  recursive and kernel-evaluable.
* Filesystem and network effects are modelled as explicit oracles
  (`String → Except String String` and friends); `undefined` resulting from
  out-of-range JavaScript array indexing is modelled with `Option`/`JVal`.
-/

/-! ## Character classes (JavaScript regex classes over the ASCII range) -/

/-- JavaScript `\s` (whitespace): space, tab, line feed, carriage return,
vertical tab, form feed.  (The Unicode space characters also matched by
JavaScript `\s` are not modelled; the artifacts involved are ASCII.) -/
def isWsChar (c : Char) : Bool :=
  c == ' ' || c == '\t' || c == '\n' || c == '\r' || c == '\x0b' || c == '\x0c'

/-- JavaScript `\d`: the ASCII digits. -/
def isDigitChar (c : Char) : Bool :=
  '0' ≤ c && c ≤ '9'

/-- JavaScript `[A-Za-z0-9_]` (the identifier class used by the client's
node and edge regexes). -/
def isWordChar (c : Char) : Bool :=
  ('A' ≤ c && c ≤ 'Z') || ('a' ≤ c && c ≤ 'z') || isDigitChar c || c == '_'

/-- JavaScript line terminators (excluded by `.` and by `[^"]`-free `.` use):
`\n`, `\r`, U+2028, U+2029. -/
def isLineTerm (c : Char) : Bool :=
  c == '\n' || c == '\r' || c == Char.ofNat 0x2028 || c == Char.ofNat 0x2029

/-! ## Basic text utilities -/

/-- `replaceAll('\r\n', '\n')` from `convertDotIds`, left-to-right and
non-overlapping exactly like the JavaScript original. -/
def stripCR : List Char → List Char
  | '\r' :: '\n' :: rest => '\n' :: stripCR rest
  | c :: rest => c :: stripCR rest
  | [] => []

def normalizeNewlines (s : String) : String :=
  String.mk (stripCR s.toList)

/-- Split on `'\n'` (the JavaScript `text.split("\n")` used by the client). -/
def splitOnNl : List Char → List (List Char)
  | [] => [[]]
  | '\n' :: rest => [] :: splitOnNl rest
  | c :: rest =>
    match splitOnNl rest with
    | [] => [[c]]
    | l :: ls => (c :: l) :: ls

def splitLines (s : String) : List String :=
  (splitOnNl s.toList).map String.mk

/-- Join lines with `'\n'` (the JavaScript `lines.join('\n')`). -/
def joinLines (ls : List String) : String :=
  String.intercalate "\n" ls

/-- Node's POSIX `path.basename(p)` (no extension argument): the last
non-empty path component, with trailing slashes ignored; `""` when the whole
string consists of slashes or is empty. -/
def basename (p : String) : String :=
  let r := p.toList.reverse.dropWhile (fun c => c == '/')
  String.mk ((r.takeWhile (fun c => c != '/')).reverse)

/-! ## LabelResolver: the comment regex scan of `convertDotIds`

The source builds the id→label map with
`const commentRegex = /\/\/\s*(\d+):(.*)/g` executed repeatedly over the whole
DOT text, inserting `id ↦ path.basename(fullPath)` into a JavaScript `Map`
(insertion order preserved, later writes overwrite in place). -/

/-- One fuelled pass of JavaScript global regex scanning: at each position try
the matcher; on success emit the captured value and continue after the
consumed prefix (`k` characters, at least one), on failure advance one
character. -/
def scanAllF (matcher : List Char → Option (α × Nat)) : Nat → List Char → List α
  | 0, _ => []
  | _ + 1, [] => []
  | fuel + 1, c :: rest =>
    match matcher (c :: rest) with
    | some (a, k) => a :: scanAllF matcher fuel (List.drop (max 1 k) (c :: rest))
    | none => scanAllF matcher fuel rest

/-- All matches of `matcher` over `cs`, in scan order. -/
def scanAll (matcher : List Char → Option (α × Nat)) (cs : List Char) : List α :=
  scanAllF matcher cs.length cs

/-- Wrap a matcher that returns its remaining suffix into one that returns a
consumed-character count. -/
def toCounted (m : List Char → Option (α × List Char)) (cs : List Char) :
    Option (α × Nat) :=
  (m cs).map (fun p => (p.1, cs.length - p.2.length))

/-- Matcher for `\/\/\s*(\d+):(.*)` at the current position: `//`, optional
whitespace, a non-empty digit group, `:`, then `.*` (everything up to the next
line terminator).  Returns `((id, fullPath), remaining)`. -/
def matchComment (cs : List Char) : Option ((String × String) × List Char) :=
  match cs with
  | '/' :: '/' :: r0 =>
    let r1 := r0.dropWhile isWsChar
    let ds := r1.takeWhile isDigitChar
    if ds.isEmpty then none else
    match r1.dropWhile isDigitChar with
    | ':' :: r2 =>
      let body := r2.takeWhile (fun c => !isLineTerm c)
      some ((String.mk ds, String.mk body), r2.dropWhile (fun c => !isLineTerm c))
    | _ => none
  | _ => none

/-- All `(id, fullPath)` comment captures of the DOT text, in scan order. -/
def commentMatches (dot : String) : List (String × String) :=
  scanAll (toCounted matchComment) dot.toList

/-- JavaScript `Map.prototype.set` over an association list: overwrite in
place when the key is present (keeping its original position), else append. -/
def setPair (m : List (String × String)) (k v : String) : List (String × String) :=
  if m.any (fun p => p.1 == k) then
    m.map (fun p => if p.1 == k then (k, v) else p)
  else
    m ++ [(k, v)]

/-- JavaScript `Map.prototype.get` over an association list. -/
def lookupPair (m : List (String × String)) (k : String) : Option String :=
  (m.find? (fun p => p.1 == k)).map (fun p => p.2)

/-- The id→label map of `convertDotIds`: every comment capture inserted in
scan order, the label being the basename of the captured path. -/
def buildIdToLabel (dot : String) : List (String × String) :=
  (commentMatches dot).foldl (fun m p => setPair m p.1 (basename p.2)) []

/-! ## GraphRewriter: the edge rewrite and cleanup of `convertDotIds`

`dot.replace(/^(\s*)(\d+)\s+->\s+(\d+);/gm, ...)` followed by
`.replace(/^\/\/.*$/gm, '')` and `.replace(/^\s*[\r\n]/gm, '')`. -/

/-- JavaScript `idToLabel.get(x) || x`: the raw id is used when the lookup is
absent **or** when the stored label is the empty string (`""` is falsy). -/
def labelOrId (m : List (String × String)) (x : String) : String :=
  match lookupPair m x with
  | some l => if l == "" then x else l
  | none => x

/-- Deterministic parse of the line-anchored prefix
`(\s*)(\d+)\s+->\s+(\d+);` — every quantified class is followed by a
character disjoint from it, so maximal munch is exact.  Returns
`(ws, fromId, toId, rest-after-semicolon)`. -/
def parseEdgePrefix (cs : List Char) :
    Option (List Char × List Char × List Char × List Char) :=
  let ws := cs.takeWhile isWsChar
  let r1 := cs.dropWhile isWsChar
  let d1 := r1.takeWhile isDigitChar
  if d1.isEmpty then none else
  let r2 := r1.dropWhile isDigitChar
  let s1 := r2.takeWhile isWsChar
  if s1.isEmpty then none else
  match r2.dropWhile isWsChar with
  | '-' :: '>' :: r3 =>
    let s2 := r3.takeWhile isWsChar
    if s2.isEmpty then none else
    let r4 := r3.dropWhile isWsChar
    let d2 := r4.takeWhile isDigitChar
    if d2.isEmpty then none else
    match r4.dropWhile isDigitChar with
    | ';' :: rest => some (ws, d1, d2, rest)
    | _ => none
  | _ => none

/-- The per-line effect of the edge-rewriting `replace`: when the line starts
with the edge pattern, the matched prefix is replaced by
`ws ++ "<label(from)>" -> "<label(to)>";` (whitespace prefix preserved, text
after the semicolon untouched); other lines are unchanged. -/
def rewriteEdgeLine (m : List (String × String)) (line : String) : String :=
  match parseEdgePrefix line.toList with
  | some (ws, d1, d2, rest) =>
    String.mk ws ++ "\"" ++ labelOrId m (String.mk d1) ++ "\" -> \"" ++
      labelOrId m (String.mk d2) ++ "\";" ++ String.mk rest
  | none => line

/-- Whether a line matches the comment-removal regex `^\/\/.*$` (anchored:
the two slashes must be the first characters of the line). -/
def isCommentLine (line : String) : Bool :=
  match line.toList with
  | '/' :: '/' :: _ => true
  | _ => false

/-- The per-line effect of `replace(/^\/\/.*$/gm, '')`: a line starting with
`//` has its content erased. -/
def stripCommentLine (line : String) : String :=
  if isCommentLine line then "" else line

def isBlankLine (line : String) : Bool :=
  line.toList.all isWsChar

/-- The effect of `replace(/^\s*[\r\n]/gm, '')` on the line list: every
whitespace-only line that is followed by a newline (i.e. every blank line
except a blank final segment, which has no trailing newline to consume)
is deleted. -/
def removeBlankLines : List String → List String
  | [] => []
  | [l] => [l]
  | l :: rest => if isBlankLine l then removeBlankLines rest else l :: removeBlankLines rest

/-- The line list produced by the text transformation of `convertDotIds`
(after `\r\n` normalization): build the id→label map, rewrite edge lines,
erase comment lines, drop blank lines. -/
def convertDotLines (dot : String) : List String :=
  let m := buildIdToLabel dot
  let lines := splitLines dot
  let rewritten := lines.map (rewriteEdgeLine m)
  let stripped := rewritten.map stripCommentLine
  removeBlankLines stripped

/-- The complete text transformation performed by `convertDotIds` on the DOT
content. -/
def convertDotText (dot : String) : String :=
  joinLines (convertDotLines dot)

/-! ## CellRewriter: the JSON side-file conversion of `convertDotIds`

The source maps `parsed.variables` through `path.basename` and rebuilds each
cell as `{src: newVariables[cell.src], dest: newVariables[cell.dest],
values: cell.values}` — the numeric indices are replaced by the looked-up
basenames (JavaScript out-of-range indexing yields `undefined`). -/

/-- The JavaScript value stored in a converted cell's `src`/`dest` field:
either the original number, a string, or `undefined`. -/
inductive JVal where
  | num : Nat → JVal
  | str : String → JVal
  | undef : JVal
deriving DecidableEq, Repr

/-- An input cell of the structured side file: positional indices into
`variables` plus an opaque `values` payload. -/
structure Cell (α : Type) where
  src : Nat
  dest : Nat
  values : α
deriving DecidableEq, Repr

/-- A converted cell as built by `convertDotIds`. -/
structure ConvCell (α : Type) where
  src : JVal
  dest : JVal
  values : α
deriving DecidableEq, Repr

/-- The record set of the side file (other JSON fields are spread through
unchanged by the source and carry no behavior; they are not modelled). -/
structure CellRecord (α : Type) where
  vars : List String    -- the source's `variables` field (`variables` is a reserved token in Lean)
  cells : List (Cell α)
deriving DecidableEq, Repr

structure ConvCellRecord (α : Type) where
  vars : List String    -- the source's `variables` field
  cells : List (ConvCell α)
deriving DecidableEq, Repr

/-- JavaScript `arr[i]` on a string array: the element, or `undefined` when
out of range. -/
def jsIndex (l : List String) (i : Nat) : JVal :=
  match l.get? i with
  | some s => JVal.str s
  | none => JVal.undef

/-- The cell conversion of `convertDotIds`: `variables` basenamed, each
cell's `src`/`dest` replaced by `newVariables[cell.src]`/`newVariables[cell.dest]`,
`values` passed through. -/
def convertCellRecord (r : CellRecord α) : ConvCellRecord α :=
  let newVariables := r.vars.map basename
  { vars := newVariables
    cells := r.cells.map (fun c =>
      { src := jsIndex newVariables c.src
        dest := jsIndex newVariables c.dest
        values := c.values }) }

/-! ## Path helpers used by `convertDotIds` (Node POSIX semantics) -/

/-- Node's POSIX `path.dirname`: scanning from the end, skip trailing
slashes, skip the last component, and cut just before the separating slash
(found at index at least 1); with no such separator the result is `/` for
rooted paths and `.` otherwise, and `//x` is special-cased to `//`. -/
def dirname (p : String) : String :=
  let cs := p.toList
  if cs.isEmpty then "." else
  let hasRoot := cs.head? = some '/'
  let afterTrail := cs.reverse.dropWhile (fun c => c == '/')
  let afterComp := afterTrail.dropWhile (fun c => c != '/')
  if afterComp.length ≤ 1 then (if hasRoot then "/" else ".")
  else if hasRoot ∧ afterComp.length = 2 then "//"
  else String.mk (afterComp.drop 1).reverse

/-- Node's POSIX `path.basename(p, ext)`: the basename, with `ext` stripped
when the basename ends with it and is not equal to it. -/
def basenameExt (p ext : String) : String :=
  let b := basename p
  if b ≠ ext ∧ ext.toList.isSuffixOf b.toList then
    String.mk (b.toList.take (b.toList.length - ext.toList.length))
  else b

/-- Node's `path.join` restricted to the shapes produced here (`dirname`
output joined with a relative file name). -/
def joinPath (a b : String) : String :=
  if a = "." then b
  else if a.toList.getLast? = some '/' then a ++ b
  else a ++ "/" ++ b

/-! ## `convertDotIds` as a whole: effect model

The filesystem is an oracle; `JSON.parse` plus the subsequent field accesses
are abstracted into a `parseRecord` oracle (any malformed side file is a
`.error`, which the source catches in its inner `try`).  Writes are modelled
as succeeding or failing per path.  The outer `try/catch` turns any dot-read
or dot-write failure into a logged error; the inner one turns any
json-read/parse/write failure into a logged warning. -/

structure FileSys (α : Type) where
  readFile : String → Except String String
  writeFile : String → Except String Unit
  parseRecord : String → Except String (CellRecord α)

/-- The normal return value of `convertDotIds`: which artifacts were written
and which failure, if any, was caught and logged. -/
inductive ConvertOutcome (α : Type) where
  | failed (err : String)
  | jsonSkipped (newDotPath newDot warn : String)
  | success (newDotPath newDot newJsonPath : String) (record : ConvCellRecord α)
deriving DecidableEq, Repr

/-- `convertDotIds`, with all effects routed through the oracle.  Every
failure path lands in one of the `ConvertOutcome` constructors — the function
always returns normally. -/
def convertDotIds (fs : FileSys α) (dotPath : String) : ConvertOutcome α :=
  match fs.readFile dotPath with
  | .error e => .failed e
  | .ok raw =>
    let dot := normalizeNewlines raw
    let newDot := convertDotText dot
    let dotDir := dirname dotPath
    let dotBase := basenameExt dotPath ".dot"
    let newDotPath := joinPath dotDir (dotBase ++ ".converted.dot")
    match fs.writeFile newDotPath with
    | .error e => .failed e
    | .ok _ =>
      let jsonPath := joinPath dotDir (dotBase ++ ".json")
      match fs.readFile jsonPath with
      | .error e => .jsonSkipped newDotPath newDot e
      | .ok rawJson =>
        match fs.parseRecord rawJson with
        | .error e => .jsonSkipped newDotPath newDot e
        | .ok parsed =>
          let newJsonPath := joinPath dotDir (dotBase ++ ".converted.json")
          match fs.writeFile newJsonPath with
          | .error e => .jsonSkipped newDotPath newDot e
          | .ok _ => .success newDotPath newDot newJsonPath (convertCellRecord parsed)

/-! ## `fetchDotForNode`: candidate locations and ordered fallback -/

/-- Characters left unescaped by JavaScript `encodeURIComponent`:
`A–Z a–z 0–9 - _ . ! ~ * ' ( )`. -/
def isUnreservedURIChar (c : Char) : Bool :=
  ('A' ≤ c && c ≤ 'Z') || ('a' ≤ c && c ≤ 'z') || isDigitChar c ||
  c == '-' || c == '_' || c == '.' || c == '!' || c == '~' || c == '*' ||
  c == '\'' || c == '(' || c == ')'

def hexDigitUpper (n : Nat) : Char :=
  if n < 10 then Char.ofNat ('0'.toNat + n) else Char.ofNat ('A'.toNat + (n - 10))

/-- Percent-encode one byte, uppercase hex. -/
def percentByte (b : UInt8) : List Char :=
  ['%', hexDigitUpper (b.toNat / 16), hexDigitUpper (b.toNat % 16)]

/-- JavaScript `encodeURIComponent`: unreserved characters kept, everything
else percent-encoded per UTF-8 byte. -/
def encodeURIComponent (s : String) : String :=
  String.mk (s.toList.flatMap (fun c =>
    if isUnreservedURIChar c then [c]
    else (String.utf8EncodeChar c).flatMap percentByte))

/-- Fuelled left-to-right non-overlapping substring replacement
(JavaScript `String.prototype.replace` with a `g` literal pattern). -/
def replaceAllF (pat repl : List Char) : Nat → List Char → List Char
  | 0, cs => cs
  | _ + 1, [] => []
  | fuel + 1, c :: rest =>
    if pat ≠ [] ∧ (c :: rest).take pat.length = pat then
      repl ++ replaceAllF pat repl fuel ((c :: rest).drop pat.length)
    else
      c :: replaceAllF pat repl fuel rest

def replaceAllStr (s pat repl : String) : String :=
  String.mk (replaceAllF pat.toList repl.toList s.toList.length s.toList)

/-- The candidate URL list of `fetchDotForNode`, in source order (the sixth
entry repeats the first verbatim; the seventh substitutes `%2F` with `__`). -/
def candidates (nodeId : String) : List String :=
  let e := encodeURIComponent nodeId
  [ "/dot/" ++ e ++ ".tree.dot"
  , "/dot/" ++ e ++ ".dot"
  , "/dot/" ++ e ++ ".tree.dot.txt"
  , "/" ++ e ++ ".tree.dot"
  , "/" ++ e ++ ".dot"
  , "/dot/" ++ e ++ ".tree.dot"
  , replaceAllStr ("/dot/" ++ e ++ ".tree.dot") "%2F" "__" ]

/-- The error message built when every candidate fails, enumerating the
attempted URLs in order. -/
def noDotFileMsg (nodeId : String) (tried : List String) : String :=
  "No DOT file found for \"" ++ nodeId ++ "\". Tried: " ++
    String.intercalate ", " tried ++
    ". Put the file in public/dot/ or ensure your server exposes /dot/ path."

/-- The candidate loop of `fetchDotForNode`: skip URLs already tried, record
each attempted URL, return on the first successful retrieval, and fail with
the enumerating message when the list is exhausted.  The network is an oracle
`fetchOk : String → Option String` (a non-ok status and a thrown fetch both
count as `none`). -/
def fetchLoop (fetchOk : String → Option String) (nodeId : String) :
    List String → List String → Except String (String × String)
  | [], tried => .error (noDotFileMsg nodeId tried)
  | url :: rest, tried =>
    if url ∈ tried then fetchLoop fetchOk nodeId rest tried
    else
      let tried' := tried ++ [url]
      match fetchOk url with
      | some text => .ok (url, text)
      | none => fetchLoop fetchOk nodeId rest tried'

def fetchDotForNode (fetchOk : String → Option String) (nodeId : String) :
    Except String (String × String) :=
  fetchLoop fetchOk nodeId (candidates nodeId) []

/-- First-occurrence deduplication relative to an already-seen list — the
specification-side description of which URLs the loop actually attempts. -/
def dedupFrom (tried : List String) : List String → List String
  | [] => []
  | u :: rest => if u ∈ tried then dedupFrom tried rest
                 else u :: dedupFrom (tried ++ [u]) rest

/-! ## The overlay (popup) state machine of the node tap handler -/

structure PopupState where
  popupDot : Option String
  popupTitle : Option String
  popupError : Option String
deriving DecidableEq, Repr

/-- The synchronous prefix of the tap handler, run before the fetch:
`setPopupError(null); setPopupTitle(nodeId);` — `popupDot` is not touched. -/
def tapActivate (s : PopupState) (nodeId : String) : PopupState :=
  { s with popupError := none, popupTitle := some nodeId }

/-- The continuation of the tap handler once the fetch settles: on success
`setPopupDot(result.text)`; on failure `setPopupError(msg); setPopupDot(null)`. -/
def tapSettle (s : PopupState) (result : Except String String) : PopupState :=
  match result with
  | .ok text => { s with popupDot := some text }
  | .error msg => { s with popupError := some msg, popupDot := none }

/-! ## TreeGraphSerializer: `treeToDot` and `nodeToDot`

Both serializers walk the syntax tree depth-first, assign sequential
identifiers, and push lines onto a shared array.  `treeToDot` emits the edge
to a child *after* the child's entire subtree; `nodeToDot` emits the edge to
a node right after that node's label line.  Neither escapes anything: the
node type is interpolated verbatim into `<id> [label="<type>"];`. -/

/-- A syntax tree node as consumed by the serializers: a `type` string and
ordered children (the tree is read-only for the serializer). -/
inductive STree where
  | node (ty : String) (children : List STree)

def STree.ty : STree → String
  | .node t _ => t

def STree.children : STree → List STree
  | .node _ c => c

mutual
/-- `addNode` of `treeToDot`: push `<id> [label="<type>"];`, then serialize
each child followed by the `<id> -> <childId>;` edge.  Returns the node's id,
the next counter value, and the extended line array. -/
def addNode : STree → Nat → List String → (String × Nat × List String)
  | .node ty children, counter, lines =>
    let nodeId := "n" ++ toString counter
    let r := addChildren nodeId children (counter + 1)
      (lines ++ [nodeId ++ " [label=\"" ++ ty ++ "\"];"])
    (nodeId, r.1, r.2)

def addChildren : String → List STree → Nat → List String → (Nat × List String)
  | _, [], counter, lines => (counter, lines)
  | pid, child :: rest, counter, lines =>
    let r := addNode child counter lines
    addChildren pid rest r.2.1 (r.2.2 ++ [pid ++ " -> " ++ r.1 ++ ";"])
end

/-- `treeToDot(tree)`: the full DOT text for the tree rooted at `t`. -/
def treeToDot (t : STree) : String :=
  joinLines (["digraph G \x7b"] ++ (addNode t 0 []).2.2 ++ ["\x7d"])

mutual
/-- The second serializer (`nodeToDot` in `parseFileWithTreeSitter`): numeric
ids, two-space indentation, edge from parent emitted *before* the children,
suppressed for the root (`parentId = -1` modelled as `none`). -/
def nodeToDot : STree → Option Nat → Nat → List String → (Nat × List String)
  | .node ty children, parentId, nextId, lines =>
    let myId := nextId
    let lines1 := lines ++ ["  " ++ toString myId ++ " [label=\"" ++ ty ++ "\"];"]
    let lines2 :=
      match parentId with
      | some p => lines1 ++ ["  " ++ toString p ++ " -> " ++ toString myId ++ ";"]
      | none => lines1
    nodeToDotChildren children myId (myId + 1) lines2

def nodeToDotChildren : List STree → Nat → Nat → List String → (Nat × List String)
  | [], _, nextId, lines => (nextId, lines)
  | child :: rest, myId, nextId, lines =>
    let r := nodeToDot child (some myId) nextId lines
    nodeToDotChildren rest myId r.1 r.2
end

/-- The `dotLines` assembly of `parseFileWithTreeSitter`:
`['digraph AST {'] ++ walk ++ ['}']`. -/
def nodeToDotGraph (t : STree) : String :=
  joinLines (["digraph AST \x7b"] ++ (nodeToDot t none 0 []).2 ++ ["\x7d"])

/-! ## GraphTextParser: the client-side reconstruction (`App.tsx`) -/

/-- A node of the client's structural graph model. -/
structure GNode where
  id : String
  label : String
deriving DecidableEq, Repr

/-- The structural model recovered by the client: nodes in discovery order
and the ordered edge sequence (duplicates kept). -/
structure GraphModel where
  nodes : List GNode
  edges : List (String × String)
deriving DecidableEq, Repr

/-- Lazy `(.*?)"\]` completion for the node regex: the shortest prefix (over
non-line-terminator characters) followed immediately by `"` `]`. -/
def lazyLabel : List Char → Option (List Char × List Char)
  | '"' :: ']' :: rest => some ([], rest)
  | c :: rest =>
    if isLineTerm c then none
    else (lazyLabel rest).map (fun p => (c :: p.1, p.2))
  | [] => none

/-- Matcher for the node regex `([A-Za-z0-9_]+)\s*\[label\s*=\s*"(.*?)"\]\s*;?`
at the current position. -/
def matchNodeDecl (cs : List Char) : Option ((String × String) × List Char) :=
  let idc := cs.takeWhile isWordChar
  if idc.isEmpty then none else
  let r1 := cs.dropWhile isWordChar
  match r1.dropWhile isWsChar with
  | '[' :: 'l' :: 'a' :: 'b' :: 'e' :: 'l' :: r2 =>
    match r2.dropWhile isWsChar with
    | '=' :: r3 =>
      match r3.dropWhile isWsChar with
      | '"' :: r4 =>
        match lazyLabel r4 with
        | some (label, r5) =>
          let r6 := r5.dropWhile isWsChar
          let r7 := if r6.head? = some ';' then r6.drop 1 else r6
          some ((String.mk idc, String.mk label), r7)
        | none => none
      | _ => none
    | _ => none
  | _ => none

/-- Matcher for the edge regex `([A-Za-z0-9_]+)\s*->\s*([A-Za-z0-9_]+)\s*;?`
at the current position. -/
def matchEdge (cs : List Char) : Option ((String × String) × List Char) :=
  let id1 := cs.takeWhile isWordChar
  if id1.isEmpty then none else
  match (cs.dropWhile isWordChar).dropWhile isWsChar with
  | '-' :: '>' :: r2 =>
    let r3 := r2.dropWhile isWsChar
    let id2 := r3.takeWhile isWordChar
    if id2.isEmpty then none else
    let r4 := (r3.dropWhile isWordChar).dropWhile isWsChar
    let r5 := if r4.head? = some ';' then r4.drop 1 else r4
    some ((String.mk id1, String.mk id2), r5)
  | _ => none

/-- All node-declaration captures of the text, in scan order. -/
def nodeDeclMatches (dot : String) : List (String × String) :=
  scanAll (toCounted matchNodeDecl) dot.toList

/-- All numeric/identifier edge captures of the text, in scan order. -/
def edgeMatches (dot : String) : List (String × String) :=
  scanAll (toCounted matchEdge) dot.toList

/-- `if (!idToLabel.has(x)) idToLabel.set(x, x)` from the edge loop of
`parseDotToElements`. -/
def addEndpoint (m : List (String × String)) (x : String) : List (String × String) :=
  if m.any (fun p => p.1 == x) then m else setPair m x x

/-- The body of the edge loop of `parseDotToElements`: materialize both
endpoints of the edge when missing. -/
def edgeStep (m : List (String × String)) (e : String × String) :
    List (String × String) :=
  addEndpoint (addEndpoint m e.1) e.2

/-- `parseDotToElements` from `App.tsx`: collect `id ↦ label` from node
declarations, then collect edges, materializing any unseen endpoint as a node
labelled with its own id. -/
def parseDotToElements (dot : String) : GraphModel :=
  let m0 := (nodeDeclMatches dot).foldl (fun m p => setPair m p.1 p.2) []
  let edges := edgeMatches dot
  let m1 := edges.foldl edgeStep m0
  { nodes := m1.map (fun p => { id := p.1, label := p.2 }), edges := edges }

/-- Matcher for the quoted-edge regex `"([^"]+)"\s*->\s*"([^"]+)"` at the
current position. -/
def matchQuotedEdge (cs : List Char) : Option ((String × String) × List Char) :=
  match cs with
  | '"' :: r0 =>
    let a := r0.takeWhile (fun c => c != '"')
    if a.isEmpty then none else
    match r0.dropWhile (fun c => c != '"') with
    | '"' :: r1 =>
      match r1.dropWhile isWsChar with
      | '-' :: '>' :: r2 =>
        match r2.dropWhile isWsChar with
        | '"' :: r3 =>
          let b := r3.takeWhile (fun c => c != '"')
          if b.isEmpty then none else
          match r3.dropWhile (fun c => c != '"') with
          | '"' :: r4 => some ((String.mk a, String.mk b), r4)
          | _ => none
        | _ => none
      | _ => none
    | _ => none
  | _ => none

/-- The dialect probe of `init`:
`/"([^"]+)"\s*->\s*"([^"]+)"/.test(dotText)`. -/
def containsQuotedEdge (dot : String) : Bool :=
  !(scanAll (toCounted matchQuotedEdge) dot.toList).isEmpty

/-- `line.match(...)`: only the first quoted-edge match of the line. -/
def firstQuotedEdge (line : String) : Option (String × String) :=
  (scanAll (toCounted matchQuotedEdge) line.toList).head?

/-- JavaScript `Set.prototype.add` over a list kept in insertion order. -/
def addIfAbsent (l : List String) (x : String) : List String :=
  if x ∈ l then l else l ++ [x]

/-- The per-line body of the quoted extraction loop of `init`. -/
def quotedStep (acc : List String × List (String × String)) (line : String) :
    List String × List (String × String) :=
  match firstQuotedEdge line with
  | some e => (addIfAbsent (addIfAbsent acc.1 e.1) e.2, acc.2 ++ [e])
  | none => acc

/-- The quoted-dialect extraction of `init`: for each line, take its first
quoted-edge match, record the edge and add both endpoints to the node set. -/
def parseQuoted (dot : String) : GraphModel :=
  let acc := (splitLines dot).foldl quotedStep ([], [])
  { nodes := acc.1.map (fun s => { id := s, label := s }), edges := acc.2 }

/-- The dialect selection of `init`: the quoted extraction whenever the probe
fires, the labeled-node parse otherwise. -/
def parseGraph (dot : String) : GraphModel :=
  if containsQuotedEdge dot then parseQuoted dot else parseDotToElements dot

/-! ## GraphLayoutBuilder: radial placement -/

/-- A positioned Cytoscape node element (`data: {id, name}` plus `position`). -/
structure PosNode where
  id : String
  name : String
  x : ℝ
  y : ℝ

def centerX : ℝ := 400
def centerY : ℝ := 250

/-- `const n = nodes.length || 1` of `buildCytoscapeElements`. -/
def radialN (nodeCount : Nat) : Nat :=
  if nodeCount = 0 then 1 else nodeCount

/-- `Math.max(120, Math.min(300, 40 * n))` of `buildCytoscapeElements`. -/
def radialRadius (nodeCount : Nat) : ℝ :=
  max 120 (min 300 (40 * (radialN nodeCount : ℝ)))

/-- `(2 * Math.PI) / n` of `buildCytoscapeElements`. -/
noncomputable def radialAngleStep (nodeCount : Nat) : ℝ :=
  (2 * Real.pi) / (radialN nodeCount : ℝ)

/-- List map with the element index (JavaScript `Array.prototype.map`'s
`(element, i)` callback). -/
def mapWithIndex (f : Nat → α → β) (l : List α) : List β :=
  go 0 l
where
  go : Nat → List α → List β
    | _, [] => []
    | i, a :: rest => f i a :: go (i + 1) rest

/-- The node elements of `buildCytoscapeElements`: node `i` placed at
`center + radius·(cos, sin)(i · angleStep)`. -/
noncomputable def buildCytoscapeElements (nodes : List GNode) : List PosNode :=
  mapWithIndex (fun i node =>
    { id := node.id, name := node.label
      x := centerX + radialRadius nodes.length * Real.cos (i * radialAngleStep nodes.length)
      y := centerY + radialRadius nodes.length * Real.sin (i * radialAngleStep nodes.length) })
    nodes

/-- The inline radial layout of the quoted branch of `init`: fixed
`radius = 200`, `angleStep = 2π / Math.max(1, nodesArr.length)`. -/
noncomputable def quotedLayoutNodes (nodesArr : List String) : List PosNode :=
  mapWithIndex (fun idx id =>
    { id := id, name := id
      x := centerX + 200 * Real.cos (idx * ((2 * Real.pi) / (max 1 nodesArr.length : ℕ)))
      y := centerY + 200 * Real.sin (idx * ((2 * Real.pi) / (max 1 nodesArr.length : ℕ))) })
    nodesArr

/-- The spec's `clamp(v, lo, hi)`. -/
def clampSpec (v lo hi : ℝ) : ℝ :=
  max lo (min hi v)

/-! ## General lemmas about the scanning machinery -/

/-- Maximal munch over an append: when every element of `l1` satisfies `p`
and `l2` does not start with a `p`-element, `takeWhile`/`dropWhile` split
`l1 ++ l2` exactly at the boundary. -/
theorem takeWhile_append_exact {α : Type} (p : α → Bool) (l1 l2 : List α)
    (h1 : ∀ c ∈ l1, p c = true) (h2 : ∀ c, l2.head? = some c → p c = false) :
    (l1 ++ l2).takeWhile p = l1 ∧ (l1 ++ l2).dropWhile p = l2 := by
  induction l1 with
  | nil =>
    cases l2 with
    | nil => exact ⟨rfl, rfl⟩
    | cons c t =>
      have hc : p c = false := h2 c rfl
      simp [List.takeWhile, List.dropWhile, hc]
  | cons a t ih =>
    have ha : p a = true := h1 a (by simp)
    have iht := ih (fun c hc => h1 c (by simp [hc]))
    simp [List.takeWhile, List.dropWhile, ha, iht.1, iht.2]

theorem scanAllF_fuel_irrel {α : Type} (m : List Char → Option (α × Nat)) :
    ∀ f g cs, cs.length ≤ f → cs.length ≤ g →
      scanAllF m f cs = scanAllF m g cs := by
  intro f
  induction f with
  | zero =>
    intro g cs hf _
    have hcs : cs = [] := List.eq_nil_of_length_eq_zero (Nat.le_zero.mp hf)
    subst hcs
    cases g <;> rfl
  | succ f ih =>
    intro g cs hf hg
    cases g with
    | zero =>
      have hcs : cs = [] := List.eq_nil_of_length_eq_zero (Nat.le_zero.mp hg)
      subst hcs; rfl
    | succ g =>
      cases cs with
      | nil => rfl
      | cons c rest =>
        have hf' : rest.length ≤ f := by simp only [List.length_cons] at hf; omega
        have hg' : rest.length ≤ g := by simp only [List.length_cons] at hg; omega
        simp only [scanAllF]
        cases hm : m (c :: rest) with
        | none => exact ih g rest hf' hg'
        | some ak =>
          obtain ⟨a, k⟩ := ak
          have hlen : (List.drop (max 1 k) (c :: rest)).length ≤ rest.length := by
            simp only [List.length_drop, List.length_cons]; omega
          exact congrArg (a :: ·) (ih g _ (le_trans hlen hf') (le_trans hlen hg'))

theorem scanAll_nil {α : Type} (m : List Char → Option (α × Nat)) :
    scanAll m [] = [] := rfl

theorem scanAll_cons_none {α : Type} (m : List Char → Option (α × Nat))
    (c : Char) (rest : List Char) (h : m (c :: rest) = none) :
    scanAll m (c :: rest) = scanAll m rest := by
  simp [scanAll, scanAllF, h]

/-- A successful match at the head of the text: the scanner emits the capture
and continues after the consumed prefix. -/
theorem scanAll_toCounted_head {α : Type} (m : List Char → Option (α × List Char))
    (consumed rem : List Char) (a : α)
    (hm : m (consumed ++ rem) = some (a, rem)) (hne : consumed ≠ []) :
    scanAll (toCounted m) (consumed ++ rem) = a :: scanAll (toCounted m) rem := by
  have hk : (consumed ++ rem).length - rem.length = consumed.length := by
    simp [List.length_append]
  have hmc : toCounted m (consumed ++ rem) = some (a, consumed.length) := by
    simp [toCounted, hm, hk]
  have hlen1 : 1 ≤ consumed.length := by
    cases consumed with
    | nil => exact absurd rfl hne
    | cons _ _ => simp
  have hdrop : List.drop (max 1 consumed.length) (consumed ++ rem) = rem := by
    rw [Nat.max_eq_right hlen1]
    exact List.drop_left consumed rem
  cases hcs : consumed ++ rem with
  | nil =>
    exact absurd (List.append_eq_nil.mp hcs).1 hne
  | cons c rest =>
    have hmc' : toCounted m (c :: rest) = some (a, consumed.length) := by
      rw [← hcs]; exact hmc
    have hdrop' : List.drop (max 1 consumed.length) (c :: rest) = rem := by
      rw [← hcs]; exact hdrop
    simp only [scanAll, List.length_cons, scanAllF, hmc', hdrop']
    refine congrArg (a :: ·) (scanAllF_fuel_irrel _ rest.length rem.length rem ?_ (le_refl _))
    have hlconc := congrArg List.length hcs
    simp only [List.length_append, List.length_cons] at hlconc
    omega

/-- If the matcher succeeds on some non-empty suffix of the text, the global
scan finds at least one match. -/
theorem scanAll_toCounted_ne_nil {α : Type} (m : List Char → Option (α × List Char))
    (pre suffix : List Char) (a : α) (rem : List Char)
    (hm : m suffix = some (a, rem)) (hne : suffix ≠ []) :
    scanAll (toCounted m) (pre ++ suffix) ≠ [] := by
  induction pre with
  | nil =>
    cases hs : suffix with
    | nil => exact absurd hs hne
    | cons c rest =>
      subst hs
      have hmc : toCounted m (c :: rest) = some (a, (c :: rest).length - rem.length) := by
        simp [toCounted, hm]
      simp only [List.nil_append, scanAll, List.length_cons, scanAllF, hmc]
      simp
  | cons c pre ih =>
    show scanAll (toCounted m) (c :: (pre ++ suffix)) ≠ []
    cases hmc : toCounted m (c :: (pre ++ suffix)) with
    | none =>
      rw [scanAll_cons_none _ _ _ hmc]
      exact ih
    | some ak =>
      obtain ⟨a', k⟩ := ak
      simp only [scanAll, List.length_cons, scanAllF, hmc]
      simp

/-! ## C9: the overlay activate transition -/

/-- C9 counterexample: activating a node from a `Displaying`-with-error state
clears the error and records the title, but does **not** clear the prior
overlay content before the fetch — `popupDot` still holds the old text. -/
theorem c9_content_not_cleared_cex :
    tapActivate { popupDot := some "old dot", popupTitle := some "old",
                  popupError := some "previous error" } "node1"
      = { popupDot := some "old dot", popupTitle := some "node1", popupError := none }
    ∧ (tapActivate { popupDot := some "old dot", popupTitle := some "old",
                     popupError := some "previous error" } "node1").popupDot ≠ none := by
  exact ⟨rfl, by simp [tapActivate]⟩

/-- C9 (amended): the activate transition clears the prior error and records
the activated node's id as the overlay title before the fetch, but leaves the
prior overlay content in place; the content is replaced only when the fetch
settles (new text on success, `none` plus an error message on failure). -/
theorem c9_activate_amended (s : PopupState) (nodeId text msg : String) :
    (tapActivate s nodeId).popupError = none
    ∧ (tapActivate s nodeId).popupTitle = some nodeId
    ∧ (tapActivate s nodeId).popupDot = s.popupDot
    ∧ tapSettle (tapActivate s nodeId) (.ok text)
        = { popupDot := some text, popupTitle := some nodeId, popupError := none }
    ∧ tapSettle (tapActivate s nodeId) (.error msg)
        = { popupDot := none, popupTitle := some nodeId, popupError := some msg } :=
  ⟨rfl, rfl, rfl, rfl, rfl⟩

/-! ## C1: the cell conversion -/

/-- C1 counterexample: for `variables = ["/a/b.py"]` and the single cell
`{src: 0, dest: 0}`, the converted cell's `src` is the string `"b.py"`, not
the numeric index `0` — the cells are not copied unchanged. -/
theorem c1_cells_not_unchanged_cex :
    (convertCellRecord { vars := ["/a/b.py"],
                         cells := [{ src := 0, dest := 0, values := "v" }] }
      : ConvCellRecord String).cells.map (fun c => c.src) = [JVal.str "b.py"]
    ∧ JVal.str "b.py" ≠ JVal.num 0 := by
  constructor
  · rfl
  · decide

/-- Indexing the basenamed variable array commutes with basename. -/
theorem jsIndex_map_basename (vars : List String) (i : Nat) :
    jsIndex (vars.map basename) i =
      match vars.get? i with
      | some v => JVal.str (basename v)
      | none => JVal.undef := by
  simp only [jsIndex, List.get?_eq_getElem?, List.getElem?_map]
  cases vars[i]? <;> rfl

/-- C1 (amended): the conversion basenames `variables` and rebuilds each cell
with `src`/`dest` replaced by the basenamed variable at that index
(`undefined` when the index is out of range); `values` is passed through
untouched and the cell count is preserved. -/
theorem c1_cells_basenamed {α : Type} (r : CellRecord α) :
    (convertCellRecord r).vars = r.vars.map basename
    ∧ (convertCellRecord r).cells.length = r.cells.length
    ∧ (convertCellRecord r).cells.map (fun c => c.values)
        = r.cells.map (fun c => c.values)
    ∧ ∀ i : Nat,
        ((convertCellRecord r).cells[i]?.map (fun c => c.src)
          = r.cells[i]?.map (fun c =>
              match r.vars.get? c.src with
              | some v => JVal.str (basename v)
              | none => JVal.undef))
        ∧ ((convertCellRecord r).cells[i]?.map (fun c => c.dest)
          = r.cells[i]?.map (fun c =>
              match r.vars.get? c.dest with
              | some v => JVal.str (basename v)
              | none => JVal.undef)) := by
  refine ⟨rfl, by simp [convertCellRecord], by simp [convertCellRecord], ?_⟩
  intro i
  constructor
  · simp only [convertCellRecord, List.getElem?_map]
    cases r.cells[i]? with
    | none => rfl
    | some c => simp [jsIndex_map_basename]
  · simp only [convertCellRecord, List.getElem?_map]
    cases r.cells[i]? with
    | none => rfl
    | some c => simp [jsIndex_map_basename]

/-! ## C10: `convertDotIds` catches every failure -/

/-- C10: for every filesystem behavior, `convertDotIds` returns normally,
routing each failure to the catch that logs it: an unreadable primary DOT
file (or a failed write of the converted DOT) yields the outer-catch
`failed` outcome with nothing further attempted; an absent or malformed side
JSON file (or a failed write of the converted JSON) yields the inner-catch
`jsonSkipped` outcome with the converted DOT already produced; otherwise both
artifacts are produced. -/
theorem c10_convert_never_throws {α : Type} (fs : FileSys α) (dotPath : String) :
    (∀ e, fs.readFile dotPath = .error e → convertDotIds fs dotPath = .failed e)
    ∧ (∀ raw, fs.readFile dotPath = .ok raw →
        (∀ e, fs.writeFile (joinPath (dirname dotPath)
                (basenameExt dotPath ".dot" ++ ".converted.dot")) = .error e →
           convertDotIds fs dotPath = .failed e)
        ∧ (fs.writeFile (joinPath (dirname dotPath)
              (basenameExt dotPath ".dot" ++ ".converted.dot")) = .ok () →
           (∀ e, fs.readFile (joinPath (dirname dotPath)
                   (basenameExt dotPath ".dot" ++ ".json")) = .error e →
              convertDotIds fs dotPath =
                .jsonSkipped (joinPath (dirname dotPath)
                    (basenameExt dotPath ".dot" ++ ".converted.dot"))
                  (convertDotText (normalizeNewlines raw)) e)
           ∧ (∀ rawJson, fs.readFile (joinPath (dirname dotPath)
                 (basenameExt dotPath ".dot" ++ ".json")) = .ok rawJson →
              (∀ e, fs.parseRecord rawJson = .error e →
                 convertDotIds fs dotPath =
                   .jsonSkipped (joinPath (dirname dotPath)
                       (basenameExt dotPath ".dot" ++ ".converted.dot"))
                     (convertDotText (normalizeNewlines raw)) e)
              ∧ (∀ parsed, fs.parseRecord rawJson = .ok parsed →
                 (∀ e, fs.writeFile (joinPath (dirname dotPath)
                         (basenameExt dotPath ".dot" ++ ".converted.json")) = .error e →
                    convertDotIds fs dotPath =
                      .jsonSkipped (joinPath (dirname dotPath)
                          (basenameExt dotPath ".dot" ++ ".converted.dot"))
                        (convertDotText (normalizeNewlines raw)) e)
                 ∧ (fs.writeFile (joinPath (dirname dotPath)
                       (basenameExt dotPath ".dot" ++ ".converted.json")) = .ok () →
                    convertDotIds fs dotPath =
                      .success (joinPath (dirname dotPath)
                          (basenameExt dotPath ".dot" ++ ".converted.dot"))
                        (convertDotText (normalizeNewlines raw))
                        (joinPath (dirname dotPath)
                          (basenameExt dotPath ".dot" ++ ".converted.json"))
                        (convertCellRecord parsed)))))) := by
  refine ⟨fun e he => by simp [convertDotIds, he], fun raw hraw => ⟨?_, ?_⟩⟩
  · intro e he
    simp [convertDotIds, hraw, he]
  · intro hw
    refine ⟨fun e he => by simp [convertDotIds, hraw, hw, he], fun rawJson hj => ⟨?_, ?_⟩⟩
    · intro e he
      simp [convertDotIds, hraw, hw, hj, he]
    · intro parsed hp
      refine ⟨fun e he => by simp [convertDotIds, hraw, hw, hj, hp, he], fun hw2 => ?_⟩
      simp [convertDotIds, hraw, hw, hj, hp, hw2]

/-- C10 witness: a concrete filesystem in which the primary DOT file is
readable but the side JSON file is absent — conversion continues with the
converted DOT written and a warning. -/
theorem c10_convert_never_throws_witness :
    convertDotIds (α := String)
      { readFile := fun p => if p = "/o/f.dot" then .ok "// 1:/x/a.py\n1 -> 1;"
                             else .error "ENOENT"
        writeFile := fun _ => .ok ()
        parseRecord := fun _ => .error "bad json" } "/o/f.dot"
      = .jsonSkipped "/o/f.converted.dot" "\"a.py\" -> \"a.py\";" "ENOENT" := by
  refine (((c10_convert_never_throws
      { readFile := fun p => if p = "/o/f.dot" then .ok "// 1:/x/a.py\n1 -> 1;"
                             else .error "ENOENT"
        writeFile := fun _ => .ok ()
        parseRecord := fun _ => .error "bad json" } "/o/f.dot").2
      "// 1:/x/a.py\n1 -> 1;" rfl).2 rfl).1 "ENOENT" rfl

/-! ## C8: the ordered candidate fallback of `fetchDotForNode` -/

/-- The candidate loop visits the candidates deduplicated by exact string
equality (relative to the already-tried list), stops at the first successful
one, and on exhaustion reports every attempted URL in order. -/
theorem fetchLoop_eq (fetchOk : String → Option String) (nodeId : String) :
    ∀ cands tried,
      fetchLoop fetchOk nodeId cands tried =
        match (dedupFrom tried cands).findSome?
            (fun u => (fetchOk u).map (fun t => (u, t))) with
        | some r => .ok r
        | none => .error (noDotFileMsg nodeId (tried ++ dedupFrom tried cands)) := by
  intro cands
  induction cands with
  | nil => intro tried; simp [fetchLoop, dedupFrom]
  | cons u rest ih =>
    intro tried
    by_cases hmem : u ∈ tried
    · simp [fetchLoop, dedupFrom, hmem, ih tried]
    · cases hf : fetchOk u with
      | some t =>
        simp [fetchLoop, dedupFrom, hmem, hf, List.findSome?]
      | none =>
        simp only [fetchLoop, dedupFrom, if_neg hmem, hf, ih (tried ++ [u]),
          List.findSome?_cons, Option.map_none']
        rw [List.append_assoc]
        simp

set_option maxRecDepth 4000 in
/-- C8: `fetchDotForNode` tries the candidate locations derived from the node
id in order (duplicates skipped only on exact string equality), stops at the
first successful retrieval, and when every candidate fails it fails with the
message enumerating exactly the attempted locations in order; concretely, for
node id `util/helpers.py` with nothing retrievable, the error message lists
the six distinct candidate URLs. -/
theorem c8_fetch_fallback (fetchOk : String → Option String) (nodeId : String) :
    (fetchDotForNode fetchOk nodeId =
      match (dedupFrom [] (candidates nodeId)).findSome?
          (fun u => (fetchOk u).map (fun t => (u, t))) with
      | some r => .ok r
      | none => .error (noDotFileMsg nodeId (dedupFrom [] (candidates nodeId))))
    ∧ fetchDotForNode (fun _ => none) "util/helpers.py" =
        .error ("No DOT file found for \"util/helpers.py\". Tried: " ++
          "/dot/util%2Fhelpers.py.tree.dot, /dot/util%2Fhelpers.py.dot, " ++
          "/dot/util%2Fhelpers.py.tree.dot.txt, /util%2Fhelpers.py.tree.dot, " ++
          "/util%2Fhelpers.py.dot, /dot/util__helpers.py.tree.dot" ++
          ". Put the file in public/dot/ or ensure your server exposes /dot/ path.") := by
  constructor
  · rw [fetchDotForNode, fetchLoop_eq]
    simp
  · rfl

/-! ## C2: the serializers interpolate the node type verbatim -/

mutual
/-- `addNode` only appends to the line accumulator; ids and counters do not
depend on it. -/
theorem addNode_acc : ∀ (t : STree) (c : Nat) (ls : List String),
    (addNode t c ls).1 = (addNode t c []).1
    ∧ (addNode t c ls).2.1 = (addNode t c []).2.1
    ∧ (addNode t c ls).2.2 = ls ++ (addNode t c []).2.2
  | .node ty children, c, ls => by
    have h1 := addChildren_acc ("n" ++ toString c) children (c + 1)
      (ls ++ ["n" ++ toString c ++ " [label=\"" ++ ty ++ "\"];"])
    have h2 := addChildren_acc ("n" ++ toString c) children (c + 1)
      ["n" ++ toString c ++ " [label=\"" ++ ty ++ "\"];"]
    refine ⟨rfl, ?_, ?_⟩
    · show (addChildren ("n" ++ toString c) children (c + 1)
          (ls ++ ["n" ++ toString c ++ " [label=\"" ++ ty ++ "\"];"])).1 = _
      rw [h1.1, ← h2.1]
      rfl
    · show (addChildren ("n" ++ toString c) children (c + 1)
          (ls ++ ["n" ++ toString c ++ " [label=\"" ++ ty ++ "\"];"])).2 = _
      rw [h1.2]
      show _ = ls ++ (addChildren ("n" ++ toString c) children (c + 1)
          ([] ++ ["n" ++ toString c ++ " [label=\"" ++ ty ++ "\"];"])).2
      rw [List.nil_append, h2.2, List.append_assoc]

theorem addChildren_acc : ∀ (pid : String) (ch : List STree) (c : Nat) (ls : List String),
    (addChildren pid ch c ls).1 = (addChildren pid ch c []).1
    ∧ (addChildren pid ch c ls).2 = ls ++ (addChildren pid ch c []).2
  | _, [], _, ls => ⟨rfl, by simp [addChildren]⟩
  | pid, child :: rest, c, ls => by
    have hn := addNode_acc child c ls
    have hr1 := addChildren_acc pid rest (addNode child c []).2.1
      (ls ++ (addNode child c []).2.2 ++ [pid ++ " -> " ++ (addNode child c []).1 ++ ";"])
    have hr2 := addChildren_acc pid rest (addNode child c []).2.1
      ((addNode child c []).2.2 ++ [pid ++ " -> " ++ (addNode child c []).1 ++ ";"])
    constructor
    · show (addChildren pid rest (addNode child c ls).2.1
          ((addNode child c ls).2.2 ++ [pid ++ " -> " ++ (addNode child c ls).1 ++ ";"])).1 = _
      rw [hn.1, hn.2.1, hn.2.2, hr1.1, ← hr2.1]
      rfl
    · show (addChildren pid rest (addNode child c ls).2.1
          ((addNode child c ls).2.2 ++ [pid ++ " -> " ++ (addNode child c ls).1 ++ ";"])).2 = _
      rw [hn.1, hn.2.1, hn.2.2, hr1.2]
      show _ = ls ++ (addChildren pid rest (addNode child c []).2.1
          ((addNode child c []).2.2 ++ [pid ++ " -> " ++ (addNode child c []).1 ++ ";"])).2
      rw [hr2.2]
      simp only [List.append_assoc]
end

mutual
/-- `nodeToDot` only appends to the line accumulator. -/
theorem nodeToDot_acc : ∀ (t : STree) (pid : Option Nat) (nid : Nat) (ls : List String),
    (nodeToDot t pid nid ls).1 = (nodeToDot t pid nid []).1
    ∧ (nodeToDot t pid nid ls).2 = ls ++ (nodeToDot t pid nid []).2
  | .node ty children, none, nid, ls => by
    have h1 := nodeToDotChildren_acc children nid (nid + 1)
      (ls ++ ["  " ++ toString nid ++ " [label=\"" ++ ty ++ "\"];"])
    have h2 := nodeToDotChildren_acc children nid (nid + 1)
      ["  " ++ toString nid ++ " [label=\"" ++ ty ++ "\"];"]
    constructor
    · show (nodeToDotChildren children nid (nid + 1)
          (ls ++ ["  " ++ toString nid ++ " [label=\"" ++ ty ++ "\"];"])).1 = _
      rw [h1.1, ← h2.1]
      rfl
    · show (nodeToDotChildren children nid (nid + 1)
          (ls ++ ["  " ++ toString nid ++ " [label=\"" ++ ty ++ "\"];"])).2 = _
      rw [h1.2]
      show _ = ls ++ (nodeToDotChildren children nid (nid + 1)
          ([] ++ ["  " ++ toString nid ++ " [label=\"" ++ ty ++ "\"];"])).2
      rw [List.nil_append, h2.2, List.append_assoc]
  | .node ty children, some p, nid, ls => by
    have h1 := nodeToDotChildren_acc children nid (nid + 1)
      (ls ++ ["  " ++ toString nid ++ " [label=\"" ++ ty ++ "\"];"] ++
        ["  " ++ toString p ++ " -> " ++ toString nid ++ ";"])
    have h2 := nodeToDotChildren_acc children nid (nid + 1)
      (["  " ++ toString nid ++ " [label=\"" ++ ty ++ "\"];"] ++
        ["  " ++ toString p ++ " -> " ++ toString nid ++ ";"])
    constructor
    · show (nodeToDotChildren children nid (nid + 1)
          (ls ++ ["  " ++ toString nid ++ " [label=\"" ++ ty ++ "\"];"] ++
            ["  " ++ toString p ++ " -> " ++ toString nid ++ ";"])).1 = _
      rw [h1.1, ← h2.1]
      rfl
    · show (nodeToDotChildren children nid (nid + 1)
          (ls ++ ["  " ++ toString nid ++ " [label=\"" ++ ty ++ "\"];"] ++
            ["  " ++ toString p ++ " -> " ++ toString nid ++ ";"])).2 = _
      rw [h1.2]
      show _ = ls ++ (nodeToDotChildren children nid (nid + 1)
          (([] ++ ["  " ++ toString nid ++ " [label=\"" ++ ty ++ "\"];"]) ++
            ["  " ++ toString p ++ " -> " ++ toString nid ++ ";"])).2
      rw [List.nil_append, h2.2]
      simp only [List.append_assoc]

theorem nodeToDotChildren_acc : ∀ (ch : List STree) (myId nid : Nat) (ls : List String),
    (nodeToDotChildren ch myId nid ls).1 = (nodeToDotChildren ch myId nid []).1
    ∧ (nodeToDotChildren ch myId nid ls).2 = ls ++ (nodeToDotChildren ch myId nid []).2
  | [], _, _, ls => ⟨rfl, by simp [nodeToDotChildren]⟩
  | child :: rest, myId, nid, ls => by
    have hn := nodeToDot_acc child (some myId) nid ls
    have hr1 := nodeToDotChildren_acc rest myId (nodeToDot child (some myId) nid []).1
      (ls ++ (nodeToDot child (some myId) nid []).2)
    have hr2 := nodeToDotChildren_acc rest myId (nodeToDot child (some myId) nid []).1
      (nodeToDot child (some myId) nid []).2
    constructor
    · show (nodeToDotChildren rest myId (nodeToDot child (some myId) nid ls).1
          (nodeToDot child (some myId) nid ls).2).1 = _
      rw [hn.1, hn.2, hr1.1, ← hr2.1]
      rfl
    · show (nodeToDotChildren rest myId (nodeToDot child (some myId) nid ls).1
          (nodeToDot child (some myId) nid ls).2).2 = _
      rw [hn.1, hn.2, hr1.2]
      show _ = ls ++ (nodeToDotChildren rest myId (nodeToDot child (some myId) nid []).1
          (nodeToDot child (some myId) nid []).2).2
      rw [hr2.2]
      simp only [List.append_assoc]
end

/-- C2 counterexample: for the single node of type `x"]y`, `treeToDot` emits
the type verbatim — no escaping — and the client's node regex then recovers
the truncated label `"x"`, not the original type: the emitted line is not
parseable back to the type. -/
theorem c2_no_escaping_cex :
    treeToDot (.node "x\"]y" []) = "digraph G \x7b\nn0 [label=\"x\"]y\"];\n\x7d"
    ∧ nodeDeclMatches (treeToDot (.node "x\"]y" [])) = [("n0", "x")]
    ∧ ("x" : String) ≠ "x\"]y" := by
  refine ⟨rfl, rfl, by decide⟩

/-- C2 (amended): neither serializer escapes anything — for every tree node,
the emitted declaration line interpolates the node's `type` string verbatim
into `<id> [label="<type>"];` (`treeToDot` with id `n<counter>`, `nodeToDot`
with the numeric id and a two-space indent). -/
theorem c2_verbatim_labels (t : STree) (c nid : Nat) (pid : Option Nat)
    (ls : List String) :
    ((addNode t c ls).1 = "n" ++ toString c
      ∧ ∃ rest, (addNode t c ls).2.2
          = ls ++ ("n" ++ toString c ++ " [label=\"" ++ t.ty ++ "\"];") :: rest)
    ∧ (∃ rest, (nodeToDot t pid nid ls).2
          = ls ++ ("  " ++ toString nid ++ " [label=\"" ++ t.ty ++ "\"];") :: rest) := by
  obtain ⟨ty, children⟩ := t
  refine ⟨⟨rfl, ?_⟩, ?_⟩
  · have h := addChildren_acc ("n" ++ toString c) children (c + 1)
      (ls ++ ["n" ++ toString c ++ " [label=\"" ++ ty ++ "\"];"])
    refine ⟨(addChildren ("n" ++ toString c) children (c + 1) []).2, ?_⟩
    show (addChildren ("n" ++ toString c) children (c + 1)
        (ls ++ ["n" ++ toString c ++ " [label=\"" ++ ty ++ "\"];"])).2 = _
    rw [h.2]
    simp [STree.ty]
  · cases pid with
    | none =>
      have h := nodeToDotChildren_acc children nid (nid + 1)
        (ls ++ ["  " ++ toString nid ++ " [label=\"" ++ ty ++ "\"];"])
      refine ⟨(nodeToDotChildren children nid (nid + 1) []).2, ?_⟩
      show (nodeToDotChildren children nid (nid + 1)
          (ls ++ ["  " ++ toString nid ++ " [label=\"" ++ ty ++ "\"];"])).2 = _
      rw [h.2]
      simp [STree.ty]
    | some p =>
      have h := nodeToDotChildren_acc children nid (nid + 1)
        (ls ++ ["  " ++ toString nid ++ " [label=\"" ++ ty ++ "\"];"] ++
          ["  " ++ toString p ++ " -> " ++ toString nid ++ ";"])
      refine ⟨("  " ++ toString p ++ " -> " ++ toString nid ++ ";") ::
        (nodeToDotChildren children nid (nid + 1) []).2, ?_⟩
      show (nodeToDotChildren children nid (nid + 1)
          (ls ++ ["  " ++ toString nid ++ " [label=\"" ++ ty ++ "\"];"] ++
            ["  " ++ toString p ++ " -> " ++ toString nid ++ ";"])).2 = _
      rw [h.2]
      simp [STree.ty]

/-! ## C6: radial layout -/

theorem mapWithIndex_go_getElem? {α β : Type} (f : Nat → α → β) :
    ∀ (l : List α) (j i : Nat),
      (mapWithIndex.go f j l)[i]? = l[i]?.map (fun a => f (j + i) a) := by
  intro l
  induction l with
  | nil => intro j i; rfl
  | cons a rest ih =>
    intro j i
    cases i with
    | zero => simp [mapWithIndex.go]
    | succ i =>
      simp only [mapWithIndex.go, List.getElem?_cons_succ]
      rw [ih (j + 1) i]
      have harith : j + 1 + i = j + (i + 1) := by omega
      rw [harith]

theorem mapWithIndex_getElem? {α β : Type} (f : Nat → α → β) (l : List α) (i : Nat) :
    (mapWithIndex f l)[i]? = l[i]?.map (fun a => f i a) := by
  rw [mapWithIndex, mapWithIndex_go_getElem?]
  simp

theorem radialN_eq_max (n : Nat) : radialN n = max 1 n := by
  cases n with
  | zero => rfl
  | succ n => simp [radialN]

/-- C6 counterexample: the quoted-dialect branch lays out its `GraphModel`
radially with the fixed radius `200`: for the one-node model parsed from
`"a" -> "a";` the first node lands at `x = centerX + 200`, whereas the
claimed formula `clamp(40 × nodeCount, 120, 300)` gives `120` — the claim
fails on this radial layout. -/
theorem c6_quoted_radius_cex :
    (parseQuoted "\"a\" -> \"a\";").nodes.map (fun nd => nd.id) = ["a"]
    ∧ (quotedLayoutNodes ((parseQuoted "\"a\" -> \"a\";").nodes.map (fun nd => nd.id))).map
        (fun nd => nd.x) = [centerX + 200]
    ∧ (centerX + 200 : ℝ) ≠ centerX + clampSpec (40 * 1) 120 300 * Real.cos 0 := by
  have hn : (parseQuoted "\"a\" -> \"a\";").nodes.map (fun nd => nd.id) = ["a"] := by
    rfl
  refine ⟨hn, ?_, ?_⟩
  · rw [hn]
    simp [quotedLayoutNodes, mapWithIndex, mapWithIndex.go]
  · rw [Real.cos_zero]
    have hclamp : clampSpec (40 * 1) 120 300 = (120 : ℝ) := by
      rw [clampSpec]
      norm_num
    rw [hclamp]
    norm_num [centerX]

/-- C6 (amended): for `buildCytoscapeElements` (the labeled-node fallback
layout) the radius equals `clamp(40 × nodeCount, 120, 300)` — in particular
120 for one node and 300 for a hundred — the angle step equals
`2π / max(1, nodeCount)`, node `i` is placed at
`center + radius·(cos, sin)(i·angleStep)`, and node 0 lands at
`center + (radius, 0)`; the quoted-dialect branch instead places its nodes on
a circle of fixed radius 200, its node 0 landing at `center + (200, 0)`. -/
theorem c6_radial_layout_amended (nodes : List GNode) (ids : List String) :
    radialRadius nodes.length = clampSpec (40 * (nodes.length : ℝ)) 120 300
    ∧ radialRadius 1 = 120
    ∧ radialRadius 100 = 300
    ∧ radialAngleStep nodes.length = 2 * Real.pi / ((max 1 nodes.length : Nat) : ℝ)
    ∧ (∀ i : Nat, (buildCytoscapeElements nodes)[i]?.map (fun nd => (nd.x, nd.y))
        = nodes[i]?.map (fun _ =>
            (centerX + radialRadius nodes.length * Real.cos (i * radialAngleStep nodes.length),
             centerY + radialRadius nodes.length * Real.sin (i * radialAngleStep nodes.length))))
    ∧ ((buildCytoscapeElements nodes)[0]?.map (fun nd => (nd.x, nd.y))
        = nodes[0]?.map (fun _ => (centerX + radialRadius nodes.length, centerY)))
    ∧ ((quotedLayoutNodes ids)[0]?.map (fun nd => (nd.x, nd.y))
        = ids[0]?.map (fun _ => (centerX + 200, centerY))) := by
  have hstep : ∀ i : Nat, (buildCytoscapeElements nodes)[i]?.map (fun nd => (nd.x, nd.y))
      = nodes[i]?.map (fun _ =>
          (centerX + radialRadius nodes.length * Real.cos (i * radialAngleStep nodes.length),
           centerY + radialRadius nodes.length * Real.sin (i * radialAngleStep nodes.length))) := by
    intro i
    rw [buildCytoscapeElements, mapWithIndex_getElem?]
    cases nodes[i]? <;> rfl
  refine ⟨?_, ?_, ?_, ?_, hstep, ?_, ?_⟩
  · cases hn : nodes.length with
    | zero =>
      rw [radialRadius, radialN, clampSpec]
      norm_num
    | succ n =>
      rw [radialRadius, radialN, clampSpec]
      simp
  · rw [radialRadius, radialN]
    norm_num
  · rw [radialRadius, radialN]
    norm_num
  · rw [radialAngleStep, radialN_eq_max]
  · rw [hstep 0]
    simp [Real.cos_zero, Real.sin_zero]
  · rw [quotedLayoutNodes, mapWithIndex_getElem?]
    cases ids[0]? <;> simp

/-! ## C5: every edge endpoint is present in the node set -/

theorem setPair_preserves_key (m : List (String × String)) (k v x : String)
    (h : ∃ p, p ∈ m ∧ p.1 = x) : ∃ p, p ∈ setPair m k v ∧ p.1 = x := by
  obtain ⟨p, hp, hpx⟩ := h
  unfold setPair
  by_cases hk : m.any (fun p => p.1 == k) = true
  · simp only [hk, if_true]
    by_cases hpk : p.1 = k
    · exact ⟨(k, v), List.mem_map.mpr ⟨p, hp, by simp [hpk]⟩, by rw [← hpk, hpx]⟩
    · exact ⟨p, List.mem_map.mpr ⟨p, hp, by simp [hpk]⟩, hpx⟩
  · simp only [hk, if_false]
    exact ⟨p, List.mem_append_left _ hp, hpx⟩

theorem setPair_adds_key (m : List (String × String)) (k v : String) :
    ∃ p, p ∈ setPair m k v ∧ p.1 = k := by
  unfold setPair
  by_cases hk : m.any (fun p => p.1 == k) = true
  · simp only [hk, if_true]
    obtain ⟨p, hp, hpk⟩ := List.any_eq_true.mp hk
    exact ⟨(k, v), List.mem_map.mpr ⟨p, hp, by simp [show p.1 = k by simpa using hpk]⟩, rfl⟩
  · simp only [hk, if_false]
    exact ⟨(k, v), List.mem_append_right _ (by simp), rfl⟩

theorem setPair_entry_src (m : List (String × String)) (k v : String) :
    ∀ q ∈ setPair m k v, q ∈ m ∨ q = (k, v) := by
  intro q hq
  unfold setPair at hq
  by_cases hk : m.any (fun p => p.1 == k) = true
  · simp only [hk, if_true] at hq
    obtain ⟨p, hp, hpq⟩ := List.mem_map.mp hq
    by_cases hpk : p.1 = k
    · right; rw [← hpq]; simp [hpk]
    · left; rw [← hpq]; simp [hpk]; exact hp
  · simp only [hk, if_false] at hq
    rcases List.mem_append.mp hq with h | h
    · exact Or.inl h
    · exact Or.inr (by simpa using h)

theorem addEndpoint_preserves_key (m : List (String × String)) (y x : String)
    (h : ∃ p, p ∈ m ∧ p.1 = x) : ∃ p, p ∈ addEndpoint m y ∧ p.1 = x := by
  unfold addEndpoint
  by_cases hy : m.any (fun p => p.1 == y) = true
  · simpa [hy] using h
  · simp only [hy, if_false]
    exact setPair_preserves_key m y y x h

theorem addEndpoint_adds_key (m : List (String × String)) (y : String) :
    ∃ p, p ∈ addEndpoint m y ∧ p.1 = y := by
  unfold addEndpoint
  by_cases hy : m.any (fun p => p.1 == y) = true
  · simp only [hy, if_true]
    obtain ⟨p, hp, hpy⟩ := List.any_eq_true.mp hy
    exact ⟨p, hp, by simpa using hpy⟩
  · simp only [hy, if_false]
    exact setPair_adds_key m y y

theorem addEndpoint_entry_src (m : List (String × String)) (y : String) :
    ∀ q ∈ addEndpoint m y, q ∈ m ∨ q.2 = q.1 := by
  intro q hq
  unfold addEndpoint at hq
  by_cases hy : m.any (fun p => p.1 == y) = true
  · simp only [hy, if_true] at hq
    exact Or.inl hq
  · simp only [hy, if_false] at hq
    rcases setPair_entry_src m y y q hq with h | h
    · exact Or.inl h
    · right; rw [h]

theorem edgeStep_preserves_key (m : List (String × String)) (e : String × String)
    (x : String) (h : ∃ p, p ∈ m ∧ p.1 = x) : ∃ p, p ∈ edgeStep m e ∧ p.1 = x :=
  addEndpoint_preserves_key _ _ _ (addEndpoint_preserves_key _ _ _ h)

theorem edgeStep_adds_keys (m : List (String × String)) (e : String × String) :
    (∃ p, p ∈ edgeStep m e ∧ p.1 = e.1) ∧ (∃ p, p ∈ edgeStep m e ∧ p.1 = e.2) :=
  ⟨addEndpoint_preserves_key _ _ _ (addEndpoint_adds_key m e.1),
   addEndpoint_adds_key _ e.2⟩

theorem edgeStep_entry_src (m : List (String × String)) (e : String × String) :
    ∀ q ∈ edgeStep m e, q ∈ m ∨ q.2 = q.1 := by
  intro q hq
  rcases addEndpoint_entry_src _ _ q hq with h | h
  · exact addEndpoint_entry_src _ _ q h
  · exact Or.inr h

theorem foldl_edgeStep_preserves_key (es : List (String × String)) :
    ∀ (m : List (String × String)) (x : String), (∃ p, p ∈ m ∧ p.1 = x) →
      ∃ p, p ∈ es.foldl edgeStep m ∧ p.1 = x := by
  induction es with
  | nil => intro m x h; exact h
  | cons e rest ih =>
    intro m x h
    exact ih (edgeStep m e) x (edgeStep_preserves_key m e x h)

theorem foldl_edgeStep_covers (es : List (String × String)) :
    ∀ (m : List (String × String)) (e : String × String), e ∈ es →
      (∃ p, p ∈ es.foldl edgeStep m ∧ p.1 = e.1)
      ∧ (∃ p, p ∈ es.foldl edgeStep m ∧ p.1 = e.2) := by
  induction es with
  | nil => intro m e h; exact absurd h (List.not_mem_nil e)
  | cons e0 rest ih =>
    intro m e he
    rcases List.mem_cons.mp he with h | h
    · subst h
      exact ⟨foldl_edgeStep_preserves_key rest _ _ (edgeStep_adds_keys m e).1,
             foldl_edgeStep_preserves_key rest _ _ (edgeStep_adds_keys m e).2⟩
    · exact ih (edgeStep m e0) e h

theorem foldl_edgeStep_entry_src (es : List (String × String)) :
    ∀ (m : List (String × String)) (q : String × String),
      q ∈ es.foldl edgeStep m → q ∈ m ∨ q.2 = q.1 := by
  induction es with
  | nil => intro m q h; exact Or.inl h
  | cons e rest ih =>
    intro m q h
    rcases ih (edgeStep m e) q h with h' | h'
    · exact edgeStep_entry_src m e q h'
    · exact Or.inr h'

theorem foldl_setPair_entry_src (ds : List (String × String)) :
    ∀ (m : List (String × String)) (q : String × String),
      q ∈ ds.foldl (fun m p => setPair m p.1 p.2) m → q ∈ m ∨ q ∈ ds := by
  induction ds with
  | nil => intro m q h; exact Or.inl h
  | cons d rest ih =>
    intro m q h
    rcases ih (setPair m d.1 d.2) q h with h' | h'
    · rcases setPair_entry_src m d.1 d.2 q h' with h'' | h''
      · exact Or.inl h''
      · right
        rw [h'']
        simp
    · right
      exact List.mem_cons_of_mem d h'

theorem addIfAbsent_mono (l : List String) (y x : String) (h : x ∈ l) :
    x ∈ addIfAbsent l y := by
  unfold addIfAbsent
  by_cases hy : y ∈ l
  · simpa [hy] using h
  · simp only [hy, if_false]
    exact List.mem_append_left _ h

theorem addIfAbsent_adds (l : List String) (y : String) : y ∈ addIfAbsent l y := by
  unfold addIfAbsent
  by_cases hy : y ∈ l
  · simp [hy]
  · simp [hy]

theorem foldl_quotedStep_inv (lines : List String) :
    ∀ (acc : List String × List (String × String)),
      (∀ e ∈ acc.2, e.1 ∈ acc.1 ∧ e.2 ∈ acc.1) →
      ∀ e ∈ (lines.foldl quotedStep acc).2,
        e.1 ∈ (lines.foldl quotedStep acc).1 ∧ e.2 ∈ (lines.foldl quotedStep acc).1 := by
  induction lines with
  | nil => intro acc h e he; exact h e he
  | cons line rest ih =>
    intro acc h
    refine ih (quotedStep acc line) ?_
    intro e he
    unfold quotedStep at he ⊢
    cases hf : firstQuotedEdge line with
    | none =>
      simp only [hf] at he ⊢
      exact h e he
    | some e0 =>
      simp only [hf] at he ⊢
      rcases List.mem_append.mp he with h' | h'
      · exact ⟨addIfAbsent_mono _ _ _ (addIfAbsent_mono _ _ _ (h e h').1),
               addIfAbsent_mono _ _ _ (addIfAbsent_mono _ _ _ (h e h').2)⟩
      · have he0 : e = e0 := by simpa using h'
        subst he0
        exact ⟨addIfAbsent_mono _ _ _ (addIfAbsent_adds _ _), addIfAbsent_adds _ _⟩

/-- C5: for every input text and either dialect, every edge endpoint of the
recovered `GraphModel` is the id of some node; moreover every node either was
declared with its label by a node-declaration match or was materialized with
its label equal to its own raw id. -/
theorem c5_edge_endpoints_closed (dot : String) :
    (∀ e ∈ (parseGraph dot).edges,
        (∃ nd ∈ (parseGraph dot).nodes, nd.id = e.1)
        ∧ (∃ nd ∈ (parseGraph dot).nodes, nd.id = e.2))
    ∧ (∀ nd ∈ (parseGraph dot).nodes,
        nd.label = nd.id ∨ (nd.id, nd.label) ∈ nodeDeclMatches dot) := by
  unfold parseGraph
  by_cases hq : containsQuotedEdge dot = true
  · simp only [hq, if_true]
    constructor
    · intro e he
      have hinv := foldl_quotedStep_inv (splitLines dot) ([], [])
        (by intro e h; exact absurd h (List.not_mem_nil e)) e he
      constructor
      · exact ⟨{ id := e.1, label := e.1 }, List.mem_map.mpr ⟨e.1, hinv.1, rfl⟩, rfl⟩
      · exact ⟨{ id := e.2, label := e.2 }, List.mem_map.mpr ⟨e.2, hinv.2, rfl⟩, rfl⟩
    · intro nd hnd
      obtain ⟨s0, _, hs⟩ := List.mem_map.mp hnd
      left
      rw [← hs]
  · simp only [if_neg hq]
    constructor
    · intro e he
      have hcov := foldl_edgeStep_covers (edgeMatches dot)
        ((nodeDeclMatches dot).foldl (fun m p => setPair m p.1 p.2) []) e he
      constructor
      · obtain ⟨p, hp, hp1⟩ := hcov.1
        exact ⟨{ id := p.1, label := p.2 }, List.mem_map.mpr ⟨p, hp, rfl⟩, hp1⟩
      · obtain ⟨p, hp, hp1⟩ := hcov.2
        exact ⟨{ id := p.1, label := p.2 }, List.mem_map.mpr ⟨p, hp, rfl⟩, hp1⟩
    · intro nd hnd
      obtain ⟨p, hp, hpnd⟩ := List.mem_map.mp hnd
      rcases foldl_edgeStep_entry_src (edgeMatches dot) _ p hp with h | h
      · rcases foldl_setPair_entry_src (nodeDeclMatches dot) [] p h with h' | h'
        · exact absurd h' (List.not_mem_nil p)
        · right
          rw [← hpnd]
          exact h'
      · left
        rw [← hpnd]
        exact h

/-- C5 witness: the labeled-node dialect text `7 -> 9;` has both endpoints of
its single edge present in the node set. -/
theorem c5_edge_endpoints_closed_witness :
    ((∃ nd ∈ (parseGraph "7 -> 9;").nodes, nd.id = "7")
      ∧ (∃ nd ∈ (parseGraph "7 -> 9;").nodes, nd.id = "9"))
    ∧ (∀ nd ∈ (parseGraph "7 -> 9;").nodes,
        nd.label = nd.id ∨ (nd.id, nd.label) ∈ nodeDeclMatches "7 -> 9;") :=
  ⟨(c5_edge_endpoints_closed "7 -> 9;").1 ("7", "9") (by decide),
   (c5_edge_endpoints_closed "7 -> 9;").2⟩

/-! ## C4: dialect selection is mutually exclusive and total -/

/-- The quoted-edge matcher succeeds on any text that starts with a
well-formed `"<a>"<ws>-><ws>"<b>"` occurrence. -/
theorem matchQuotedEdge_of_shape (a ws1 ws2 b post : List Char)
    (ha : a ≠ []) (haq : ∀ c ∈ a, (c != '"') = true)
    (hb : b ≠ []) (hbq : ∀ c ∈ b, (c != '"') = true)
    (hw1 : ∀ c ∈ ws1, isWsChar c = true) (hw2 : ∀ c ∈ ws2, isWsChar c = true) :
    matchQuotedEdge ('"' :: a ++ '"' :: ws1 ++ '-' :: '>' :: ws2 ++ '"' :: b ++ '"' :: post)
      = some ((String.mk a, String.mk b), post) := by
  have hta := takeWhile_append_exact (fun c => c != '"') a
    ('"' :: (ws1 ++ '-' :: '>' :: (ws2 ++ '"' :: (b ++ '"' :: post)))) haq
    (by intro c hc; simp only [List.head?_cons, Option.some.injEq] at hc; subst hc; simp)
  have htw1 := takeWhile_append_exact isWsChar ws1
    ('-' :: '>' :: (ws2 ++ '"' :: (b ++ '"' :: post))) hw1
    (by intro c hc; simp only [List.head?_cons, Option.some.injEq] at hc; subst hc; decide)
  have htw2 := takeWhile_append_exact isWsChar ws2
    ('"' :: (b ++ '"' :: post)) hw2
    (by intro c hc; simp only [List.head?_cons, Option.some.injEq] at hc; subst hc; decide)
  have htb := takeWhile_append_exact (fun c => c != '"') b ('"' :: post) hbq
    (by intro c hc; simp only [List.head?_cons, Option.some.injEq] at hc; subst hc; simp)
  have hae : a.isEmpty = false := by cases a with | nil => exact absurd rfl ha | cons _ _ => rfl
  have hbe : b.isEmpty = false := by cases b with | nil => exact absurd rfl hb | cons _ _ => rfl
  simp only [matchQuotedEdge, List.cons_append, List.append_assoc]
  simp only [hta.1, hta.2, hae, Bool.false_eq_true, if_false, htw1.2, htw2.2,
    htb.1, htb.2, hbe]

/-- C4: the dialect selection is mutually exclusive and total: any structural
occurrence of a quoted edge `"<a>" -> "<b>"` makes the probe fire, a firing
probe routes parsing to the quoted extraction (even if labeled-node syntax is
also present), and a text with no quoted edge, no node declaration and no
plain edge yields the empty `GraphModel` (and, the parser being a total
function, no error). -/
theorem c4_dialect_selection (dot : String) (pre a ws1 ws2 b post : List Char) :
    ((dot.toList = pre ++ ('"' :: a ++ '"' :: ws1 ++ '-' :: '>' :: ws2 ++ '"' :: b ++ '"' :: post)
        ∧ a ≠ [] ∧ (∀ c ∈ a, (c != '"') = true)
        ∧ b ≠ [] ∧ (∀ c ∈ b, (c != '"') = true)
        ∧ (∀ c ∈ ws1, isWsChar c = true) ∧ (∀ c ∈ ws2, isWsChar c = true))
      → containsQuotedEdge dot = true)
    ∧ (containsQuotedEdge dot = true → parseGraph dot = parseQuoted dot)
    ∧ ((containsQuotedEdge dot = false ∧ nodeDeclMatches dot = []
        ∧ edgeMatches dot = [])
      → parseGraph dot = { nodes := [], edges := [] }) := by
  refine ⟨?_, ?_, ?_⟩
  · rintro ⟨hdot, ha, haq, hb, hbq, hw1, hw2⟩
    have hm := matchQuotedEdge_of_shape a ws1 ws2 b post ha haq hb hbq hw1 hw2
    have hne := scanAll_toCounted_ne_nil matchQuotedEdge pre
      ('"' :: a ++ '"' :: ws1 ++ '-' :: '>' :: ws2 ++ '"' :: b ++ '"' :: post)
      (String.mk a, String.mk b) post hm (by simp)
    unfold containsQuotedEdge
    rw [hdot]
    simpa [List.isEmpty_iff] using hne
  · intro h
    unfold parseGraph
    rw [if_pos h]
  · rintro ⟨h1, h2, h3⟩
    unfold parseGraph
    rw [if_neg (by simp [h1])]
    unfold parseDotToElements
    rw [h2, h3]
    rfl

/-- C4 witness: the probe fires on the concrete quoted edge `"a" -> "b"` and
routes to the quoted extraction; the probe-free, match-free text `hello`
yields the empty model. -/
theorem c4_dialect_selection_witness :
    containsQuotedEdge "\"a\" -> \"b\"" = true
    ∧ parseGraph "\"a\" -> \"b\"" = parseQuoted "\"a\" -> \"b\""
    ∧ parseGraph "hello" = { nodes := [], edges := [] } := by
  have h1 := (c4_dialect_selection "\"a\" -> \"b\"" [] ['a'] [' '] [' '] ['b'] []).1
    ⟨by decide, by decide, by decide, by decide, by decide, by decide, by decide⟩
  refine ⟨h1, (c4_dialect_selection "\"a\" -> \"b\"" [] [] [] [] [] []).2.1 h1, ?_⟩
  exact (c4_dialect_selection "hello" [] [] [] [] [] []).2.2 ⟨by decide, by decide, by decide⟩

/-! ## C7: the LabelResolver map -/

theorem find?_map_update (m : List (String × String)) (a v k : String) :
    (m.map (fun p => if p.1 == a then (a, v) else p)).find? (fun p => p.1 == k)
      = if a = k then (m.find? (fun p => p.1 == a)).map (fun _ => (a, v))
        else m.find? (fun p => p.1 == k) := by
  induction m with
  | nil => by_cases h : a = k <;> simp [h]
  | cons p rest ih =>
    simp only [List.map_cons]
    by_cases hpa : p.1 = a
    · rw [show (if p.1 == a then (a, v) else p) = (a, v) by simp [hpa]]
      by_cases hak : a = k
      · rw [if_pos hak]
        rw [List.find?_cons_of_pos _ (by simp [hak]),
            List.find?_cons_of_pos _ (by simp [hpa])]
        rfl
      · rw [if_neg hak]
        rw [List.find?_cons_of_neg _ (by simp [hak]),
            List.find?_cons_of_neg _ (by simp [hpa, hak]), ih, if_neg hak]
    · rw [show (if p.1 == a then (a, v) else p) = p by simp [hpa]]
      by_cases hpk : p.1 = k
      · have hak : ¬ a = k := fun h => hpa (by rw [h, ← hpk])
        rw [if_neg hak]
        rw [List.find?_cons_of_pos _ (by simp [hpk]),
            List.find?_cons_of_pos _ (by simp [hpk])]
      · by_cases hak : a = k
        · rw [if_pos hak]
          rw [List.find?_cons_of_neg _ (by simp [hpk]),
              List.find?_cons_of_neg _ (by simp [hpa]), ih, if_pos hak]
        · rw [if_neg hak]
          rw [List.find?_cons_of_neg _ (by simp [hpk]),
              List.find?_cons_of_neg _ (by simp [hpk]), ih, if_neg hak]

theorem lookupPair_setPair (m : List (String × String)) (a v k : String) :
    lookupPair (setPair m a v) k = if a = k then some v else lookupPair m k := by
  by_cases hm : (m.any fun p => p.1 == a) = true
  · unfold lookupPair setPair
    rw [if_pos hm, find?_map_update]
    by_cases hak : a = k
    · rw [if_pos hak, if_pos hak]
      obtain ⟨p, hp, hpa⟩ := List.any_eq_true.mp hm
      cases hfind : m.find? (fun p => p.1 == a) with
      | none => exact absurd hpa (List.find?_eq_none.mp hfind p hp)
      | some q => rfl
    · rw [if_neg hak, if_neg hak]
  · have hm' : (m.any fun p => p.1 == a) = false := by rwa [Bool.not_eq_true] at hm
    unfold lookupPair setPair
    rw [if_neg hm, List.find?_append]
    by_cases hak : a = k
    · subst hak
      have hnone : m.find? (fun p => p.1 == a) = none := by
        rw [List.find?_eq_none]
        intro p hp hcon
        rw [List.any_eq_false] at hm'
        exact hm' p hp hcon
      rw [hnone, if_pos rfl]
      simp [List.find?]
    · rw [if_neg hak]
      cases hfind : m.find? (fun p => p.1 == k) with
      | none =>
        simp [List.find?, show ((a == k) = false) by simpa using hak]
      | some q =>
        rfl

theorem lookupPair_foldl_setPair (f : String → String) :
    ∀ (ps : List (String × String)) (m : List (String × String)) (k : String),
      lookupPair (ps.foldl (fun m p => setPair m p.1 (f p.2)) m) k
        = match (ps.filter (fun p => p.1 == k)).getLast? with
          | some p => some (f p.2)
          | none => lookupPair m k := by
  intro ps
  induction ps with
  | nil => intro m k; rfl
  | cons p rest ih =>
    intro m k
    rw [List.foldl_cons, ih]
    by_cases hpk : p.1 = k
    · rw [List.filter_cons_of_pos (by simpa using hpk)]
      cases hfil : rest.filter (fun p => p.1 == k) with
      | nil =>
        simp only [List.getLast?_nil, List.getLast?_singleton]
        show lookupPair (setPair m p.1 (f p.2)) k = some (f p.2)
        rw [lookupPair_setPair, if_pos hpk]
      | cons q t =>
        rw [List.getLast?_cons_cons]
        cases hl : (q :: t).getLast? with
        | some r => rfl
        | none => exact absurd hl (by simp)
    · rw [List.filter_cons_of_neg (by simpa using hpk)]
      cases hfil : (rest.filter (fun p => p.1 == k)).getLast? with
      | some q => rfl
      | none =>
        show lookupPair (setPair m p.1 (f p.2)) k = lookupPair m k
        rw [lookupPair_setPair, if_neg hpk]

/-- Digits are not JavaScript whitespace. -/
theorem isDigit_not_ws (c : Char) (h : isDigitChar c = true) : isWsChar c = false := by
  by_contra hw
  rw [Bool.not_eq_false] at hw
  simp only [isWsChar, Bool.or_eq_true, beq_iff_eq] at hw
  rcases hw with ((((rfl | rfl) | rfl) | rfl) | rfl) | rfl <;> exact absurd h (by decide)

/-- The comment matcher succeeds on a whole line of the shape
`//<ws><digits>:<text>` and consumes it entirely. -/
theorem matchComment_of_shape (sp ds rest : List Char)
    (hsp : ∀ c ∈ sp, isWsChar c = true)
    (hds : ds ≠ []) (hdsd : ∀ c ∈ ds, isDigitChar c = true)
    (hrest : ∀ c ∈ rest, isLineTerm c = false) :
    matchComment ('/' :: '/' :: sp ++ ds ++ ':' :: rest)
      = some ((String.mk ds, String.mk rest), []) := by
  obtain ⟨d0, ds', hds0⟩ : ∃ d0 ds', ds = d0 :: ds' := by
    cases ds with
    | nil => exact absurd rfl hds
    | cons d0 ds' => exact ⟨d0, ds', rfl⟩
  have hsp2 := takeWhile_append_exact isWsChar sp (ds ++ ':' :: rest) hsp
    (by
      intro c hc
      rw [hds0] at hc
      simp only [List.cons_append, List.head?_cons, Option.some.injEq] at hc
      subst hc
      exact isDigit_not_ws d0 (hdsd d0 (by rw [hds0]; simp)))
  have hds2 := takeWhile_append_exact isDigitChar ds (':' :: rest) hdsd
    (by intro c hc; simp only [List.head?_cons, Option.some.injEq] at hc; subst hc; decide)
  have hrest2 := takeWhile_append_exact (fun c => !isLineTerm c) rest []
    (by intro c hc; simp [hrest c hc]) (by intro c hc; simp at hc)
  rw [List.append_nil] at hrest2
  have hdse : ds.isEmpty = false := by rw [hds0]; rfl
  simp only [matchComment, List.cons_append, List.append_assoc]
  simp only [hsp2.2, hds2.1, hds2.2, hdse, Bool.false_eq_true, if_false]
  simp only [hrest2.1, hrest2.2]

/-- C7: the LabelResolver.  The map lookup of any id equals the basename of
the path of the *last* comment match carrying that id (absent when no match
carries it); a line of the exact shape `//<ws><digits>:<text>` produces
exactly that single capture; and a text with no comment match yields the
empty map. -/
theorem c7_label_resolver (dot : String) (id : String) (sp ds rest : List Char) :
    (lookupPair (buildIdToLabel dot) id
      = match ((commentMatches dot).filter (fun p => p.1 == id)).getLast? with
        | some p => some (basename p.2)
        | none => none)
    ∧ ((∀ c ∈ sp, isWsChar c = true) → ds ≠ [] → (∀ c ∈ ds, isDigitChar c = true) →
        (∀ c ∈ rest, isLineTerm c = false) →
        commentMatches (String.mk ('/' :: '/' :: sp ++ ds ++ ':' :: rest))
          = [(String.mk ds, String.mk rest)])
    ∧ (commentMatches dot = [] → buildIdToLabel dot = []) := by
  refine ⟨?_, ?_, ?_⟩
  · rw [buildIdToLabel, lookupPair_foldl_setPair basename (commentMatches dot) [] id]
    rfl
  · intro hsp hds hdsd hrest
    have hm := matchComment_of_shape sp ds rest hsp hds hdsd hrest
    have hmm : matchComment (('/' :: '/' :: sp ++ ds ++ ':' :: rest) ++ [])
        = some ((String.mk ds, String.mk rest), []) := by
      rw [List.append_nil]
      exact hm
    have h := scanAll_toCounted_head matchComment
      ('/' :: '/' :: sp ++ ds ++ ':' :: rest) [] (String.mk ds, String.mk rest)
      hmm (by simp)
    unfold commentMatches
    have htl : (String.mk ('/' :: '/' :: sp ++ ds ++ ':' :: rest)).toList
        = ('/' :: '/' :: sp ++ ds ++ ':' :: rest) ++ [] := by
      simp
    rw [htl, h]
    rfl
  · intro h
    unfold buildIdToLabel
    rw [h]
    rfl

/-- C7 witness: the duplicated id `1` resolves to the basename of the *last*
comment's path; the single comment line `// 7:/a/b/main.py` yields exactly
its capture; a comment-free text yields the empty map. -/
theorem c7_label_resolver_witness :
    lookupPair (buildIdToLabel "// 1:/x/a.py\n// 1:/y/b.py") "1" = some "b.py"
    ∧ commentMatches "// 7:/a/b/main.py" = [("7", "/a/b/main.py")]
    ∧ buildIdToLabel "no comments here" = [] := by
  refine ⟨?_, ?_, ?_⟩
  · rw [(c7_label_resolver "// 1:/x/a.py\n// 1:/y/b.py" "1" [] [] []).1]
    decide
  · have h := (c7_label_resolver "x" "x" [' '] ['7'] "/a/b/main.py".toList).2.1
      (by decide) (by decide) (by decide) (by decide)
    have heq : "// 7:/a/b/main.py"
        = String.mk ('/' :: '/' :: [' '] ++ ['7'] ++ ':' :: "/a/b/main.py".toList) := by
      decide
    rw [heq, h]
    decide
  · exact (c7_label_resolver "no comments here" "x" [] [] []).2.2 (by decide)

/-! ## C3: the edge rewrite and cleanup -/

/-- JavaScript whitespace is not a digit. -/
theorem isWs_not_digit (c : Char) (h : isWsChar c = true) : isDigitChar c = false := by
  simp only [isWsChar, Bool.or_eq_true, beq_iff_eq] at h
  rcases h with ((((rfl | rfl) | rfl) | rfl) | rfl) | rfl <;> decide

/-- The edge-prefix parser succeeds on exactly the shape matched by the
line-anchored regex `(\s*)(\d+)\s+->\s+(\d+);`. -/
theorem parseEdgePrefix_of_shape (ws d1 s1 s2 d2 rest : List Char)
    (hws : ∀ c ∈ ws, isWsChar c = true)
    (hd1 : d1 ≠ []) (hd1d : ∀ c ∈ d1, isDigitChar c = true)
    (hs1 : s1 ≠ []) (hs1w : ∀ c ∈ s1, isWsChar c = true)
    (hs2 : s2 ≠ []) (hs2w : ∀ c ∈ s2, isWsChar c = true)
    (hd2 : d2 ≠ []) (hd2d : ∀ c ∈ d2, isDigitChar c = true) :
    parseEdgePrefix (ws ++ d1 ++ s1 ++ '-' :: '>' :: s2 ++ d2 ++ ';' :: rest)
      = some (ws, d1, d2, rest) := by
  obtain ⟨e1, d1', hd10⟩ : ∃ e1 d1', d1 = e1 :: d1' := by
    cases d1 with
    | nil => exact absurd rfl hd1
    | cons e1 d1' => exact ⟨e1, d1', rfl⟩
  obtain ⟨w1, s1', hs10⟩ : ∃ w1 s1', s1 = w1 :: s1' := by
    cases s1 with
    | nil => exact absurd rfl hs1
    | cons w1 s1' => exact ⟨w1, s1', rfl⟩
  obtain ⟨e2, d2', hd20⟩ : ∃ e2 d2', d2 = e2 :: d2' := by
    cases d2 with
    | nil => exact absurd rfl hd2
    | cons e2 d2' => exact ⟨e2, d2', rfl⟩
  have hA := takeWhile_append_exact isWsChar ws
    (d1 ++ (s1 ++ '-' :: '>' :: (s2 ++ (d2 ++ ';' :: rest)))) hws
    (by
      intro c hc
      rw [hd10] at hc
      simp only [List.cons_append, List.head?_cons, Option.some.injEq] at hc
      subst hc
      exact isDigit_not_ws e1 (hd1d e1 (by rw [hd10]; simp)))
  have hB := takeWhile_append_exact isDigitChar d1
    (s1 ++ '-' :: '>' :: (s2 ++ (d2 ++ ';' :: rest))) hd1d
    (by
      intro c hc
      rw [hs10] at hc
      simp only [List.cons_append, List.head?_cons, Option.some.injEq] at hc
      subst hc
      exact isWs_not_digit w1 (hs1w w1 (by rw [hs10]; simp)))
  have hC := takeWhile_append_exact isWsChar s1
    ('-' :: '>' :: (s2 ++ (d2 ++ ';' :: rest))) hs1w
    (by intro c hc; simp only [List.head?_cons, Option.some.injEq] at hc; subst hc; decide)
  have hD := takeWhile_append_exact isWsChar s2 (d2 ++ ';' :: rest) hs2w
    (by
      intro c hc
      rw [hd20] at hc
      simp only [List.cons_append, List.head?_cons, Option.some.injEq] at hc
      subst hc
      exact isDigit_not_ws e2 (hd2d e2 (by rw [hd20]; simp)))
  have hE := takeWhile_append_exact isDigitChar d2 (';' :: rest) hd2d
    (by intro c hc; simp only [List.head?_cons, Option.some.injEq] at hc; subst hc; decide)
  have hd1e : d1.isEmpty = false := by rw [hd10]; rfl
  have hs1e : s1.isEmpty = false := by rw [hs10]; rfl
  have hs2e : s2.isEmpty = false := by
    cases s2 with
    | nil => exact absurd rfl hs2
    | cons _ _ => rfl
  have hd2e : d2.isEmpty = false := by rw [hd20]; rfl
  simp only [parseEdgePrefix, List.cons_append, List.append_assoc]
  simp only [hA.1, hA.2, hB.1, hB.2, hd1e, Bool.false_eq_true, if_false,
    hC.1, hC.2, hs1e, hD.1, hD.2, hs2e, hE.1, hE.2, hd2e]

theorem removeBlankLines_cons_cons (a b : String) (t : List String) :
    removeBlankLines (a :: b :: t)
      = if isBlankLine a then removeBlankLines (b :: t)
        else a :: removeBlankLines (b :: t) := by
  rw [removeBlankLines]
  simp

theorem mem_removeBlankLines : ∀ (ls : List String) (l : String),
    l ∈ removeBlankLines ls → l ∈ ls := by
  intro ls
  induction ls with
  | nil => intro l h; exact absurd h (List.not_mem_nil l)
  | cons a rest ih =>
    intro l h
    cases rest with
    | nil => exact h
    | cons b t =>
      rw [removeBlankLines_cons_cons] at h
      by_cases hb : isBlankLine a = true
      · rw [if_pos hb] at h
        exact List.mem_cons_of_mem a (ih l h)
      · rw [if_neg hb] at h
        rcases List.mem_cons.mp h with h' | h'
        · exact h' ▸ List.mem_cons_self a _
        · exact List.mem_cons_of_mem a (ih l h')

theorem removeBlankLines_ne_nil : ∀ (ls : List String), ls ≠ [] →
    removeBlankLines ls ≠ [] := by
  intro ls
  induction ls with
  | nil => intro h; exact absurd rfl h
  | cons a rest ih =>
    intro _
    cases rest with
    | nil => simp [removeBlankLines]
    | cons b t =>
      rw [removeBlankLines_cons_cons]
      by_cases hb : isBlankLine a = true
      · rw [if_pos hb]
        exact ih (by simp)
      · rw [if_neg hb]
        simp

theorem removeBlankLines_dropLast_nonblank : ∀ (ls : List String) (l : String),
    l ∈ (removeBlankLines ls).dropLast → isBlankLine l = false := by
  intro ls
  induction ls with
  | nil => intro l h; simp [removeBlankLines] at h
  | cons a rest ih =>
    intro l h
    cases rest with
    | nil => simp [removeBlankLines] at h
    | cons b t =>
      rw [removeBlankLines_cons_cons] at h
      by_cases hb : isBlankLine a = true
      · rw [if_pos hb] at h
        exact ih l h
      · rw [if_neg hb] at h
        rw [List.dropLast_cons_of_ne_nil (removeBlankLines_ne_nil (b :: t) (by simp))] at h
        rcases List.mem_cons.mp h with h' | h'
        · subst h'
          rwa [Bool.not_eq_true] at hb
        · exact ih l h'

theorem isCommentLine_strip (x : String) :
    isCommentLine (stripCommentLine x) = false := by
  unfold stripCommentLine
  by_cases h : isCommentLine x = true
  · rw [if_pos h]
    rfl
  · rw [if_neg h]
    rwa [Bool.not_eq_true] at h

/-- C3 counterexample: for the input `// 5:` + `5 -> 5;`, the id→label map
holds the *empty* label for id `5`; the claimed rule (fall back to the raw id
only when the lookup is absent) would rewrite the edge to `"" -> "";`, but
the code's falsy check also rejects the present-but-empty label and emits
`"5" -> "5";`. -/
theorem c3_empty_label_fallback_cex :
    convertDotText "// 5:\n5 -> 5;" = "\"5\" -> \"5\";"
    ∧ lookupPair (buildIdToLabel "// 5:\n5 -> 5;") "5" = some ""
    ∧ ("\"5\" -> \"5\";" : String) ≠ "\"" ++ "" ++ "\" -> \"" ++ "" ++ "\";" := by
  refine ⟨rfl, rfl, by decide⟩

/-- C3 (amended): the rewriter transforms each line of the form
`<ws><digits> -> <digits>;<tail>` into
`<ws>"<label(from)>" -> "<label(to)>";<tail>` — preserving the leading
whitespace — where `label(x)` is the map lookup of `x` falling back to `x`
itself when the lookup is absent *or when the stored label is the empty
string* (the JavaScript falsy check); every line of the output line list is
comment-free, every non-final output line is non-blank, and the concrete
round trip `// 7:/a/b/main.py` + `7 -> 9;` produces exactly
`"main.py" -> "9";`. -/
theorem c3_rewrite_amended (m : List (String × String)) (dot : String)
    (ws d1 s1 s2 d2 rest : List Char) :
    ((∀ c ∈ ws, isWsChar c = true) → d1 ≠ [] → (∀ c ∈ d1, isDigitChar c = true) →
     s1 ≠ [] → (∀ c ∈ s1, isWsChar c = true) →
     s2 ≠ [] → (∀ c ∈ s2, isWsChar c = true) →
     d2 ≠ [] → (∀ c ∈ d2, isDigitChar c = true) →
      rewriteEdgeLine m (String.mk (ws ++ d1 ++ s1 ++ '-' :: '>' :: s2 ++ d2 ++ ';' :: rest))
        = String.mk ws ++ "\"" ++ labelOrId m (String.mk d1) ++ "\" -> \"" ++
            labelOrId m (String.mk d2) ++ "\";" ++ String.mk rest)
    ∧ (∀ line ∈ convertDotLines dot, isCommentLine line = false)
    ∧ (∀ line ∈ (convertDotLines dot).dropLast, isBlankLine line = false)
    ∧ convertDotText "// 7:/a/b/main.py\n7 -> 9;" = "\"main.py\" -> \"9\";" := by
  refine ⟨?_, ?_, ?_, ?_⟩
  · intro hws hd1 hd1d hs1 hs1w hs2 hs2w hd2 hd2d
    unfold rewriteEdgeLine
    have htl : (String.mk (ws ++ d1 ++ s1 ++ '-' :: '>' :: s2 ++ d2 ++ ';' :: rest)).toList
        = ws ++ d1 ++ s1 ++ '-' :: '>' :: s2 ++ d2 ++ ';' :: rest := rfl
    rw [htl, parseEdgePrefix_of_shape ws d1 s1 s2 d2 rest
      hws hd1 hd1d hs1 hs1w hs2 hs2w hd2 hd2d]
  · intro line hline
    simp only [convertDotLines] at hline
    have h1 := mem_removeBlankLines _ line hline
    obtain ⟨x, _, hx⟩ := List.mem_map.mp h1
    rw [← hx]
    exact isCommentLine_strip x
  · intro line hline
    simp only [convertDotLines] at hline
    exact removeBlankLines_dropLast_nonblank _ line hline
  · rfl

/-- C3 witness: a concrete rewrite with a present label for `7`, a missing
label for `9`, leading whitespace preserved; plus the concrete pipeline
facts of the amended claim. -/
theorem c3_rewrite_amended_witness :
    rewriteEdgeLine [("7", "main.py")] (String.mk ("  7 -> 9;x".toList))
      = String.mk "  ".toList ++ "\"" ++ labelOrId [("7", "main.py")] (String.mk "7".toList)
        ++ "\" -> \"" ++ labelOrId [("7", "main.py")] (String.mk "9".toList)
        ++ "\";" ++ String.mk "x".toList
    ∧ (∀ line ∈ convertDotLines "// 7:/a/b/main.py\n7 -> 9;", isCommentLine line = false)
    ∧ convertDotText "// 7:/a/b/main.py\n7 -> 9;" = "\"main.py\" -> \"9\";" := by
  have h := c3_rewrite_amended [("7", "main.py")] "// 7:/a/b/main.py\n7 -> 9;"
    "  ".toList "7".toList " ".toList " ".toList "9".toList "x".toList
  exact ⟨h.1 (by decide) (by decide) (by decide) (by decide) (by decide)
      (by decide) (by decide) (by decide) (by decide),
    h.2.1, h.2.2.2⟩
